import Mathlib

/-!
Verification development for the PyWall rule-orchestration engine and
self-healing configuration store.

The definitions below are a shallow embedding of the Python sources
`src/config.py` and `src/cmdWorker.py`:

* configuration documents (`configparser` state) are ordered association
  lists of sections, each an ordered association list of string options;
* Python string helpers (`str.strip`, `str.split(",")`, `", ".join`,
  substring containment `a in b`) are re-implemented over `List Char`;
* the file system is passed in explicitly (`DirListing`, `PathInfo`,
  with creation times as naturals);
* process effects (disk writes, subprocess invocations, toast
  notifications, `sys.exit`) are recorded in explicit result records.

The `configparser` DEFAULT-section fallback and option-name lowercasing
are not exercised by this code base and are not modelled.
-/

/-! ## Python string helpers over `List Char` -/

/-- Default whitespace recognised by Python's `str.strip()`. -/
def isPySpace (c : Char) : Bool :=
  c == ' ' || c == '\t' || c == '\n' || c == '\r' || c == '\x0b' || c == '\x0c'

/-- `str.strip()` on the character list: drop whitespace on both ends. -/
def trimChars (l : List Char) : List Char :=
  ((l.dropWhile isPySpace).reverse.dropWhile isPySpace).reverse

/-- `str.split(",")`: split on every comma, keeping empty pieces. -/
def splitComma : List Char → List (List Char)
  | [] => [[]]
  | c :: rest =>
    if c == ',' then [] :: splitComma rest
    else
      match splitComma rest with
      | [] => [[c]]
      | g :: gs => (c :: g) :: gs

/-- `", ".join`: interleave a comma and a space between the pieces. -/
def joinCommaSpace : List (List Char) → List Char
  | [] => []
  | [x] => x
  | x :: xs => x ++ ',' :: ' ' :: joinCommaSpace xs

/-- Python substring containment `needle in haystack`. -/
def occursIn (needle : List Char) : List Char → Bool
  | [] => needle.isEmpty
  | c :: rest => needle.isPrefixOf (c :: rest) || occursIn needle rest

/-- `[item.strip() for item in s.split(",") if item.strip()]` from
`append_config` in `config.py`. -/
def parseChars (s : List Char) : List (List Char) :=
  ((splitComma s).map trimChars).filter (fun x => !x.isEmpty)

/-! ## Configuration documents (`configparser` state) -/

/-- The options of one section, in file order. -/
abbrev ConfigOptions := List (String × String)

/-- A parsed configuration document: sections in file order. -/
abbrev ConfigDoc := List (String × ConfigOptions)

/-- Does the section hold the option key? -/
def optHas (o : ConfigOptions) (k : String) : Bool :=
  o.any (fun p => p.1 == k)

/-- Value of an option key inside one section. -/
def optGet (o : ConfigOptions) (k : String) : Option String :=
  (o.find? (fun p => p.1 == k)).map (fun p => p.2)

/-- `ConfigParser.set` inside one section: replace in place, or append. -/
def optSet : ConfigOptions → String → String → ConfigOptions
  | [], k, v => [(k, v)]
  | p :: rest, k, v =>
    if p.1 == k then (k, v) :: rest else p :: optSet rest k v

/-- `ConfigParser.has_section`. -/
def hasSection (d : ConfigDoc) (s : String) : Bool :=
  d.any (fun p => p.1 == s)

/-- `ConfigParser.has_option` (false when the section is missing). -/
def hasOption (d : ConfigDoc) (s k : String) : Bool :=
  match d.find? (fun p => p.1 == s) with
  | none => false
  | some sec => optHas sec.2 k

/-- `ConfigParser.get` as an `Option` (missing section or option: `none`). -/
def docGet (d : ConfigDoc) (s k : String) : Option String :=
  match d.find? (fun p => p.1 == s) with
  | none => none
  | some sec => optGet sec.2 k

/-- `ConfigParser.set` on the whole document.  The callers in the source
always create the section first, so a missing section leaves the
document unchanged. -/
def docSet : ConfigDoc → String → String → String → ConfigDoc
  | [], _, _, _ => []
  | sec :: rest, s, k, v =>
    if sec.1 == s then (sec.1, optSet sec.2 k v) :: rest
    else sec :: docSet rest s k v

/-- `ConfigParser.add_section`: a fresh empty section at the end. -/
def addSection (d : ConfigDoc) (s : String) : ConfigDoc :=
  d ++ [(s, [])]

/-- The compiled-in `default_config` dictionary from `config.py`. -/
def default_config : ConfigDoc :=
  [("FILETYPE",
    [("accepted_types", ".exe"),
     ("blacklisted_names", ""),
     ("recursive", "True")]),
   ("GUI",
    [("advanced_mode", "False"),
     ("stylesheet", "dark_red.xml"),
     ("first_run", "True")]),
   ("UI",
    [("show_notifications", "True")]),
   ("DEBUG",
    [("create_logs", "False"),
     ("create_exception_logs", "True"),
     ("version", "v1.8"),
     ("shell", "False")])]

/-! ## `modify_config` -/

/-- `modify_config` from `config.py`, on a parsed document: add the
section when missing, set the value, write the file back.  The
exception branches (unreadable or unwritable file) are outside the
model. -/
def modify_config (d : ConfigDoc) (s k v : String) : ConfigDoc :=
  let d1 := if hasSection d s then d else addSection d s
  docSet d1 s k v

/-! ## `append_config` -/

/-- A Python value as returned from `append_config`: the source returns
the boolean `True` on the non-exception path, never a number. -/
inductive PyVal
  | pyBool (b : Bool)
  | pyInt (n : Int)
deriving DecidableEq, Repr

/-- Outcome of one `append_config` call: the document persisted on disk
afterwards, how many disk writes happened, the internal
`appended_count`, and the Python return value. -/
structure AppendResult where
  persisted : ConfigDoc
  writes : Nat
  appendedCount : Nat
  ret : PyVal
deriving DecidableEq, Repr

/-- The `for val_item in value_to_append` loop of `append_config`: strip
each candidate, skip empties and values already present, count the
rest. -/
def appendNew (existing : List (List Char)) :
    List (List Char) → List (List Char) × Nat
  | [] => (existing, 0)
  | v :: rest =>
    let sv := trimChars v
    if !sv.isEmpty && !existing.contains sv then
      let r := appendNew (existing ++ [sv]) rest
      (r.1, r.2 + 1)
    else appendNew existing rest

/-- The `all_values` list-comprehension of `append_config`: the stored
comma-separated value as an ordered list of stripped non-empty items. -/
def append_existing (d1 : ConfigDoc) (sec key : String) :
    List (List Char) :=
  let current := (docGet d1 sec key).getD ""
  if current == "" then [] else parseChars current.data

/-- `append_config` from `config.py`, on a parsed document.  The file
always exists here (the source recreates it first otherwise), so only
the in-memory update and the conditional write are modelled.  When no
value is appended the file is not written, so the persisted document is
the original one even though the in-memory parser may have gained an
empty section. -/
def append_config (d : ConfigDoc) (sec key : String) (values : List String) :
    AppendResult :=
  let d1 := if hasSection d sec then d else addSection d sec
  let p := appendNew (append_existing d1 sec key) (values.map String.data)
  if 0 < p.2 then
    ⟨docSet d1 sec key ⟨joinCommaSpace p.1⟩, 1, p.2, .pyBool true⟩
  else
    ⟨d, 0, p.2, .pyBool true⟩

/-! ## `validate_config` -/

/-- Outcome of one `validate_config` call on a readable document: the
resulting document, the final `needs_save` flag, and how many times the
file was written back. -/
structure ValidateResult where
  doc : ConfigDoc
  dirty : Bool
  writes : Nat
deriving DecidableEq, Repr

/-- The inner option loop of `validate_config`: add each default option
missing from an existing section. -/
def validateOpts (s : String) (opts : ConfigOptions) :
    ConfigDoc × Bool → ConfigDoc × Bool
  | (doc, dirty) =>
    match opts with
    | [] => (doc, dirty)
    | (k, v) :: rest =>
      if hasOption doc s k then validateOpts s rest (doc, dirty)
      else validateOpts s rest (docSet doc s k v, true)

/-- Contents of a section added wholesale by `validate_config`
(`add_section` followed by `set` for every default option). -/
def buildSection (opts : ConfigOptions) : ConfigOptions :=
  opts.foldl (fun o kv => optSet o kv.1 kv.2) []

/-- The outer section loop of `validate_config`: add whole missing
sections, complete existing ones. -/
def validateSections (defaults : ConfigDoc) :
    ConfigDoc × Bool → ConfigDoc × Bool
  | (doc, dirty) =>
    match defaults with
    | [] => (doc, dirty)
    | (s, opts) :: rest =>
      if hasSection doc s then
        validateSections rest (validateOpts s opts (doc, dirty))
      else
        validateSections rest (doc ++ [(s, buildSection opts)], true)

/-- The version-update block of `validate_config`: make sure `DEBUG`
exists, then overwrite `version` when it differs from the compiled-in
default. -/
def versionPass (defaults : ConfigDoc) :
    ConfigDoc × Bool → ConfigDoc × Bool
  | (doc, dirty) =>
    let st := if hasSection doc "DEBUG" then (doc, dirty)
              else (addSection doc "DEBUG", true)
    let cur := docGet st.1 "DEBUG" "version"
    match docGet defaults "DEBUG" "version" with
    | none => st
    | some v =>
      if cur == some v then st
      else (docSet st.1 "DEBUG" "version" v, true)

/-- `validate_config` from `config.py` on a document that parsed
(the recreate-on-corruption branches are outside this model): the
structural pass writes once when it changed anything, then the version
block writes again whenever the cumulative `needs_save` flag is set. -/
def validate_config (defaults d : ConfigDoc) : ValidateResult :=
  let p1 := validateSections defaults (d, false)
  let w1 := if p1.2 then 1 else 0
  let p2 := versionPass defaults p1
  let w2 := if p2.2 then 1 else 0
  ⟨p2.1, p2.2, w1 + w2⟩

/-! ## Target files and directory enumeration (`cmdWorker.py`) -/

/-- A file-system entry as seen by `cmdWorker`: its path string, the
`pathlib` stem and suffix, its creation time, and whether it is a
regular file. -/
structure FileEntry where
  path : String
  stem : String
  suffix : String
  ctime : Nat
  isFile : Bool
deriving DecidableEq, Repr

/-- Stable insertion of one entry into a list sorted by creation time. -/
def insertCtime (x : FileEntry) : List FileEntry → List FileEntry
  | [] => [x]
  | y :: ys =>
    if x.ctime ≤ y.ctime then x :: y :: ys else y :: insertCtime x ys

/-- `sorted(files, key=os.path.getctime)`. -/
def sortByCtime : List FileEntry → List FileEntry
  | [] => []
  | x :: xs => insertCtime x (sortByCtime xs)

/-- What `glob` sees inside one directory: the immediate children
(`glob(path/*)`) and the recursive enumeration (`glob(path/*/**)`). -/
structure DirListing where
  children : List FileEntry
  descendants : List FileEntry
deriving DecidableEq, Repr

/-- Outcome of `path_foreach_in`: the enumerated files, plus the
configuration document on disk afterwards and how many times it was
written. -/
structure ForeachResult where
  files : List FileEntry
  cfg : ConfigDoc
  cfgWrites : Nat
deriving DecidableEq, Repr

/-- `path_foreach_in` from `cmdWorker.py`.  The `FILETYPE/recursive`
value selects the enumeration; any stored value other than `"True"`
and `"False"` is rewritten to `"True"` through `modify_config` before
the recursive enumeration runs.  When the key is missing entirely,
`get_config` repairs the file through `validate_config` and hands back
the schema default `"True"`, so the recursive branch runs. -/
def path_foreach_in (cfg : ConfigDoc) (dir : DirListing) : ForeachResult :=
  let filesNoRecursive := sortByCtime dir.children
  match docGet cfg "FILETYPE" "recursive" with
  | some v =>
    if v == "True" then
      ⟨sortByCtime (sortByCtime dir.descendants ++ filesNoRecursive), cfg, 0⟩
    else if v == "False" then
      ⟨filesNoRecursive, cfg, 0⟩
    else
      let cfg2 := modify_config cfg "FILETYPE" "recursive" "True"
      ⟨sortByCtime (sortByCtime dir.descendants ++ filesNoRecursive), cfg2, 1⟩
  | none =>
    let vr := validate_config default_config cfg
    ⟨sortByCtime (sortByCtime dir.descendants ++ filesNoRecursive), vr.doc,
      vr.writes⟩

/-! ## `_gather_target_files` -/

/-- The user-supplied path as `cmdWorker` inspects it: existence and
kind, the `pathlib` name, stem and suffix, the directory listing when
it is a directory, and the path itself as a file entry when it is a
file. -/
structure PathInfo where
  name : String
  stem : String
  suffix : String
  existsOnDisk : Bool
  isDir : Bool
  isFile : Bool
  listing : DirListing
  entry : FileEntry
deriving DecidableEq, Repr

/-- Outcome of `_gather_target_files`: the targets (`none` for every
rejection path), the configuration document afterwards and its write
count. -/
structure GatherResult where
  targets : Option (List FileEntry)
  cfg : ConfigDoc
  cfgWrites : Nat
deriving DecidableEq, Repr

/-- The per-file eligibility test shared by the directory and
single-file branches of `_gather_target_files`: some accepted suffix
occurs inside the file's suffix, and the stem is not blacklisted. -/
def fileEligible (ignored allowed : List String) (stem suffix : String) :
    Bool :=
  allowed.any (fun a => occursIn a.data suffix.data) && !ignored.contains stem

/-- `_gather_target_files` from `cmdWorker.py`.  `ignored` is the
module-level `ignoredFiles`, `allowed` the module-level `allowedTypes`. -/
def gather_target_files (cfg : ConfigDoc) (ignored allowed : List String)
    (p : PathInfo) : GatherResult :=
  if !p.existsOnDisk then ⟨none, cfg, 0⟩
  else if p.isDir then
    let fr := path_foreach_in cfg p.listing
    let files := fr.files.filter
      (fun f => f.isFile && fileEligible ignored allowed f.stem f.suffix)
    if files.isEmpty then ⟨none, fr.cfg, fr.cfgWrites⟩
    else ⟨some files, fr.cfg, fr.cfgWrites⟩
  else if p.isFile then
    if !ignored.contains p.stem
        && allowed.any (fun a => occursIn a.data p.suffix.data) then
      ⟨some [p.entry], cfg, 0⟩
    else ⟨none, cfg, 0⟩
  else ⟨none, cfg, 0⟩

/-! ## `_build_firewall_command` -/

/-- The deterministic rule name: a fixed prefix followed by the stem. -/
def ruleNameFor (f : FileEntry) : String :=
  "PyWall blocked " ++ f.stem

/-- The `name="..."` fragment embedded into every built command. -/
def nameToken (f : FileEntry) : String :=
  "name=\"" ++ ruleNameFor f ++ "\""

/-- `_build_firewall_command` from `cmdWorker.py`: a `netsh` add-rule
command for `deny`, a delete-rule command for `allow`, `none`
otherwise. -/
def build_firewall_command (action rule_type : String) (f : FileEntry) :
    Option String :=
  if action == "deny" then
    some ("@echo off && netsh advfirewall firewall add rule "
      ++ nameToken f ++ " dir=" ++ rule_type ++ " program=\""
      ++ f.path ++ "\" action=block")
  else if action == "allow" then
    some ("@echo off && netsh advfirewall firewall delete rule "
      ++ nameToken f ++ " dir=" ++ rule_type ++ " program=\""
      ++ f.path ++ "\"")
  else none

/-- The command list `access_handler` builds for one file: `both`
expands into an `in` and an `out` command, every other rule type into
one command; `None` results are dropped. -/
def buildCommandsFor (action rule_type : String) (f : FileEntry) :
    List String :=
  if rule_type == "both" then
    (match build_firewall_command action "in" f with
     | some c => [c]
     | none => []) ++
    (match build_firewall_command action "out" f with
     | some c => [c]
     | none => [])
  else
    match build_firewall_command action rule_type f with
    | some c => [c]
    | none => []

/-! ## `_execute_firewall_commands` and `access_handler` -/

/-- Environment of one orchestration call: whether the process is
elevated, whether the `ShellExecuteW` elevation request succeeds, and
which firewall commands succeed when run. -/
structure ExecEnv where
  admin : Bool
  elevateOk : Bool
  exec : String → Bool

/-- How `_execute_firewall_commands` ends: `exited` models `sys.exit`
after a successful elevation request, `finished ok` a normal return. -/
inductive ExecOutcome
  | exited
  | finished (ok : Bool)
deriving DecidableEq, Repr

/-- One `_execute_firewall_commands` call: its outcome and the commands
actually handed to `subprocess.run`. -/
structure ExecTrace where
  outcome : ExecOutcome
  executed : List String
deriving Repr

/-- `_execute_firewall_commands` from `cmdWorker.py`.  Without admin
rights no command runs: a successful elevation request exits the
process, a failed one returns `False`.  With admin rights every truthy
command is run, and the result is the conjunction of the per-command
outcomes. -/
def execute_firewall_commands (env : ExecEnv) (commands : List String) :
    ExecTrace :=
  if !env.admin then
    if env.elevateOk then ⟨.exited, []⟩
    else ⟨.finished false, []⟩
  else
    let run := commands.filter (fun c => !(c == ""))
    ⟨.finished (run.all env.exec), run⟩

/-- Accumulated state of the per-file loop in `access_handler`. -/
structure LoopState where
  built : List String
  executed : List String
  allOk : Bool
  exited : Bool
deriving Repr

/-- The `for file_path_obj in target_files` loop of `access_handler`:
build the commands for each file, skip files with no commands, run the
rest, and conjoin the per-file outcomes.  A `sys.exit` raised inside
`_execute_firewall_commands` is not caught and stops the loop. -/
def access_loop (env : ExecEnv) (action rule_type : String) :
    List FileEntry → LoopState
  | [] => ⟨[], [], true, false⟩
  | f :: rest =>
    let cmds := buildCommandsFor action rule_type f
    if cmds.isEmpty then
      let s := access_loop env action rule_type rest
      ⟨cmds ++ s.built, s.executed, s.allOk, s.exited⟩
    else
      let t := execute_firewall_commands env cmds
      match t.outcome with
      | .exited => ⟨cmds, t.executed, true, true⟩
      | .finished ok =>
        let s := access_loop env action rule_type rest
        ⟨cmds ++ s.built, t.executed ++ s.executed, ok && s.allOk, s.exited⟩

/-- How `access_handler` ends: the process exits during elevation, or
the function returns one of its status strings. -/
inductive HandlerResult
  | exited
  | finished (msg : String)
deriving DecidableEq, Repr

/-- Observable behaviour of one `access_handler` call. -/
structure AccessTrace where
  result : HandlerResult
  gatherRan : Bool
  built : List String
  executed : List String
  toasts : List (String × String)
deriving Repr

/-- The success toasts of `access_handler` (`deny` and `allow` each
have one; any other action shows none). -/
def successToasts (action displayName : String) : List (String × String) :=
  if action == "deny" then
    [("Success",
      "Internet access rules updated for denying\n\"" ++ displayName ++ "\"")]
  else if action == "allow" then
    [("Success",
      "Internet access rules updated for allowing\n\"" ++ displayName ++ "\"")]
  else []

/-- Body of the partial-failure toast of `access_handler`. -/
def failSummaryBody (displayName : String) : String :=
  "Some rules for \"" ++ displayName ++ "\" may not have been applied. Check logs."

/-- `access_handler` from `cmdWorker.py`: validate the rule type, gather
the targets, run the per-file loop, aggregate.  `p.name` plays the role
of `display_path_name` (the `pathlib` name of the original input
path). -/
def access_handler (env : ExecEnv) (cfg : ConfigDoc)
    (ignored allowed : List String) (p : PathInfo)
    (action rule_type : String) : AccessTrace :=
  if !(rule_type == "both" || rule_type == "in" || rule_type == "out") then
    ⟨.finished "Invalid rule type", false, [], [],
      [("Rule type is invalid",
        "The selected rule type is not valid, please try again")]⟩
  else
    let g := gather_target_files cfg ignored allowed p
    match g.targets with
    | none => ⟨.finished "No target files", true, [], [], []⟩
    | some files =>
      let s := access_loop env action rule_type files
      if s.exited then ⟨.exited, true, s.built, s.executed, []⟩
      else if s.allOk then
        ⟨.finished "Operation completed", true, s.built, s.executed,
          successToasts action p.name⟩
      else
        ⟨.finished "Operation failed for some files", true, s.built,
          s.executed,
          [("Operation Partly Failed", failSummaryBody p.name)]⟩

/-! ## Helper lemmas: substring containment -/

theorem occursIn_infix_iff (n h : List Char) :
    occursIn n h = true ↔ n <:+: h := by
  induction h with
  | nil =>
    simp [occursIn, List.isEmpty_iff, List.infix_nil]
  | cons c t ih =>
    simp only [occursIn, Bool.or_eq_true, ih, List.infix_cons_iff,
      List.isPrefixOf_iff_prefix]

theorem contains_true_iff (l : List String) (s : String) :
    l.contains s = true ↔ s ∈ l := by
  simp [List.contains, List.elem_iff]

/-! ## Helper lemmas: sorting by creation time -/

theorem mem_insertCtime (a x : FileEntry) (l : List FileEntry) :
    a ∈ insertCtime x l ↔ a = x ∨ a ∈ l := by
  induction l with
  | nil => simp [insertCtime]
  | cons y ys ih =>
    by_cases h : x.ctime ≤ y.ctime
    · simp [insertCtime, h]
    · simp [insertCtime, h, ih]
      tauto

theorem insertCtime_perm (x : FileEntry) (l : List FileEntry) :
    (insertCtime x l).Perm (x :: l) := by
  induction l with
  | nil => simp [insertCtime]
  | cons y ys ih =>
    by_cases h : x.ctime ≤ y.ctime
    · simp [insertCtime, h]
    · simp only [insertCtime, h, if_false]
      exact (ih.cons y).trans (List.Perm.swap x y ys)

theorem sortByCtime_perm (l : List FileEntry) :
    (sortByCtime l).Perm l := by
  induction l with
  | nil => simp [sortByCtime]
  | cons x xs ih =>
    exact (insertCtime_perm x (sortByCtime xs)).trans (ih.cons x)

theorem insertCtime_sorted (x : FileEntry) (l : List FileEntry)
    (h : l.Pairwise (fun a b => a.ctime ≤ b.ctime)) :
    (insertCtime x l).Pairwise (fun a b => a.ctime ≤ b.ctime) := by
  induction l with
  | nil => simp [insertCtime]
  | cons y ys ih =>
    rcases List.pairwise_cons.mp h with ⟨hy, hys⟩
    by_cases hxy : x.ctime ≤ y.ctime
    · simp only [insertCtime, hxy, if_true]
      refine List.pairwise_cons.mpr ⟨?_, h⟩
      intro b hb
      rcases List.mem_cons.mp hb with rfl | hb'
      · exact hxy
      · exact le_trans hxy (hy b hb')
    · simp only [insertCtime, hxy, if_false]
      refine List.pairwise_cons.mpr ⟨?_, ih hys⟩
      intro b hb
      rcases (mem_insertCtime b x ys).mp hb with rfl | hb'
      · exact le_of_lt (lt_of_not_le hxy)
      · exact hy b hb'

theorem sortByCtime_sorted (l : List FileEntry) :
    (sortByCtime l).Pairwise (fun a b => a.ctime ≤ b.ctime) := by
  induction l with
  | nil => simp [sortByCtime]
  | cons x xs ih => exact insertCtime_sorted x (sortByCtime xs) ih

/-! ## Helper lemmas: configuration documents -/

theorem if_beq_true {α : Sort _} {c : Bool} (h : c = true) (a b : α) :
    (if c = true then a else b) = a := by
  simp [h]

theorem if_beq_false {α : Sort _} {c : Bool} (h : c = false) (a b : α) :
    (if c = true then a else b) = b := by
  simp [h]

theorem optHas_cons (p : String × String) (rest : ConfigOptions)
    (k : String) :
    optHas (p :: rest) k = (p.1 == k || optHas rest k) := by
  simp [optHas]

theorem optGet_cons_pos (p : String × String) (rest : ConfigOptions)
    (k : String) (h : (p.1 == k) = true) :
    optGet (p :: rest) k = some p.2 := by
  simp [optGet, List.find?_cons, h]

theorem optGet_cons_neg (p : String × String) (rest : ConfigOptions)
    (k : String) (h : (p.1 == k) = false) :
    optGet (p :: rest) k = optGet rest k := by
  simp [optGet, List.find?_cons, h]

theorem hasSection_cons (sec : String × ConfigOptions) (rest : ConfigDoc)
    (s : String) :
    hasSection (sec :: rest) s = (sec.1 == s || hasSection rest s) := by
  simp [hasSection]

theorem hasOption_cons_pos (sec : String × ConfigOptions) (rest : ConfigDoc)
    (s k : String) (h : (sec.1 == s) = true) :
    hasOption (sec :: rest) s k = optHas sec.2 k := by
  simp [hasOption, List.find?_cons, h]

theorem hasOption_cons_neg (sec : String × ConfigOptions) (rest : ConfigDoc)
    (s k : String) (h : (sec.1 == s) = false) :
    hasOption (sec :: rest) s k = hasOption rest s k := by
  simp [hasOption, List.find?_cons, h]

theorem docGet_cons_pos (sec : String × ConfigOptions) (rest : ConfigDoc)
    (s k : String) (h : (sec.1 == s) = true) :
    docGet (sec :: rest) s k = optGet sec.2 k := by
  simp [docGet, List.find?_cons, h]

theorem docGet_cons_neg (sec : String × ConfigOptions) (rest : ConfigDoc)
    (s k : String) (h : (sec.1 == s) = false) :
    docGet (sec :: rest) s k = docGet rest s k := by
  simp [docGet, List.find?_cons, h]

theorem optSet_cons_pos (p : String × String) (rest : ConfigOptions)
    (k v : String) (h : (p.1 == k) = true) :
    optSet (p :: rest) k v = (k, v) :: rest := by
  simp only [optSet, if_beq_true h]

theorem optSet_cons_neg (p : String × String) (rest : ConfigOptions)
    (k v : String) (h : (p.1 == k) = false) :
    optSet (p :: rest) k v = p :: optSet rest k v := by
  simp only [optSet, if_beq_false h]

theorem docSet_cons_pos (sec : String × ConfigOptions) (rest : ConfigDoc)
    (s k v : String) (h : (sec.1 == s) = true) :
    docSet (sec :: rest) s k v = (sec.1, optSet sec.2 k v) :: rest := by
  simp only [docSet, if_beq_true h]

theorem docSet_cons_neg (sec : String × ConfigOptions) (rest : ConfigDoc)
    (s k v : String) (h : (sec.1 == s) = false) :
    docSet (sec :: rest) s k v = sec :: docSet rest s k v := by
  simp only [docSet, if_beq_false h]

theorem optHas_optSet (o : ConfigOptions) (k v : String) (k' : String) :
    optHas (optSet o k v) k' = (optHas o k' || k == k') := by
  induction o with
  | nil =>
    simp only [optSet, optHas, List.any_cons, List.any_nil,
      Bool.or_false, Bool.false_or]
  | cons p rest ih =>
    cases h : p.1 == k with
    | true =>
      have hk : p.1 = k := by simpa using h
      rw [optSet_cons_pos _ _ _ _ h, optHas_cons, optHas_cons, hk]
      cases hkk : k == k' <;> simp [hkk]
    | false =>
      rw [optSet_cons_neg _ _ _ _ h, optHas_cons, optHas_cons, ih]
      cases hpk : p.1 == k' <;> simp

theorem optGet_optSet_self (o : ConfigOptions) (k v : String) :
    optGet (optSet o k v) k = some v := by
  induction o with
  | nil => simp [optSet, optGet]
  | cons p rest ih =>
    cases h : p.1 == k with
    | true =>
      rw [optSet_cons_pos _ _ _ _ h, optGet_cons_pos _ _ _ (by simp)]
    | false =>
      rw [optSet_cons_neg _ _ _ _ h, optGet_cons_neg _ _ _ h]
      exact ih

theorem optGet_optSet_other (o : ConfigOptions) (k v k' : String)
    (h : k ≠ k') :
    optGet (optSet o k v) k' = optGet o k' := by
  have hk : (k == k') = false := by simp [h]
  induction o with
  | nil => simp [optSet, optGet, hk]
  | cons p rest ih =>
    cases hpk : p.1 == k with
    | true =>
      have hp : p.1 = k := by simpa using hpk
      have hpk' : (p.1 == k') = false := by simp [hp, h]
      rw [optSet_cons_pos _ _ _ _ hpk, optGet_cons_neg _ _ _ hk,
        optGet_cons_neg _ _ _ hpk']
    | false =>
      cases hpc : p.1 == k' with
      | true =>
        rw [optSet_cons_neg _ _ _ _ hpk, optGet_cons_pos _ _ _ hpc,
          optGet_cons_pos _ _ _ hpc]
      | false =>
        rw [optSet_cons_neg _ _ _ _ hpk, optGet_cons_neg _ _ _ hpc,
          optGet_cons_neg _ _ _ hpc]
        exact ih

theorem optHas_iff_isSome (o : ConfigOptions) (k : String) :
    optHas o k = (optGet o k).isSome := by
  induction o with
  | nil => simp [optHas, optGet]
  | cons p rest ih =>
    cases h : p.1 == k with
    | true =>
      rw [optHas_cons, optGet_cons_pos _ _ _ h, h]
      simp
    | false =>
      rw [optHas_cons, optGet_cons_neg _ _ _ h, h, ih]
      simp

theorem hasSection_docSet (d : ConfigDoc) (s' k v s : String) :
    hasSection (docSet d s' k v) s = hasSection d s := by
  induction d with
  | nil => simp [docSet]
  | cons sec rest ih =>
    cases h : sec.1 == s' with
    | true =>
      rw [docSet_cons_pos _ _ _ _ _ h, hasSection_cons, hasSection_cons]
    | false =>
      rw [docSet_cons_neg _ _ _ _ _ h, hasSection_cons, hasSection_cons, ih]

theorem hasSection_append (d : ConfigDoc) (l : ConfigDoc) (s : String) :
    hasSection (d ++ l) s = (hasSection d s || hasSection l s) := by
  simp [hasSection]

theorem hasSection_addSection (d : ConfigDoc) (s' s : String) :
    hasSection (addSection d s') s = (hasSection d s || s' == s) := by
  simp [addSection, hasSection_append, hasSection]

theorem hasOption_docSet_self (d : ConfigDoc) (s k v : String)
    (h : hasSection d s = true) :
    hasOption (docSet d s k v) s k = true := by
  induction d with
  | nil => simp [hasSection] at h
  | cons sec rest ih =>
    cases hs : sec.1 == s with
    | true =>
      rw [docSet_cons_pos _ _ _ _ _ hs,
        hasOption_cons_pos (sec.1, optSet sec.2 k v) rest s k hs,
        optHas_optSet]
      simp
    | false =>
      rw [hasSection_cons, hs, Bool.false_or] at h
      rw [docSet_cons_neg _ _ _ _ _ hs, hasOption_cons_neg _ _ _ _ hs]
      exact ih h

theorem hasOption_docSet_mono (d : ConfigDoc) (s' k' v s k : String)
    (h : hasOption d s k = true) :
    hasOption (docSet d s' k' v) s k = true := by
  induction d with
  | nil => simp [hasOption] at h
  | cons sec rest ih =>
    cases hs : sec.1 == s' with
    | true =>
      have h1 : sec.1 = s' := by simpa using hs
      cases hss : sec.1 == s with
      | true =>
        rw [hasOption_cons_pos _ _ _ _ hss] at h
        rw [docSet_cons_pos _ _ _ _ _ hs,
          hasOption_cons_pos (sec.1, optSet sec.2 k' v) rest s k hss,
          optHas_optSet, h, Bool.true_or]
      | false =>
        rw [hasOption_cons_neg _ _ _ _ hss] at h
        rw [docSet_cons_pos _ _ _ _ _ hs,
          hasOption_cons_neg (sec.1, optSet sec.2 k' v) rest s k hss]
        exact h
    | false =>
      cases hss : sec.1 == s with
      | true =>
        rw [hasOption_cons_pos _ _ _ _ hss] at h
        rw [docSet_cons_neg _ _ _ _ _ hs, hasOption_cons_pos _ _ _ _ hss]
        exact h
      | false =>
        rw [hasOption_cons_neg _ _ _ _ hss] at h
        rw [docSet_cons_neg _ _ _ _ _ hs, hasOption_cons_neg _ _ _ _ hss]
        exact ih h

theorem hasOption_append_mono (d l : ConfigDoc) (s k : String)
    (h : hasOption d s k = true) :
    hasOption (d ++ l) s k = true := by
  induction d with
  | nil => simp [hasOption] at h
  | cons sec rest ih =>
    cases hss : sec.1 == s with
    | true =>
      rw [hasOption_cons_pos _ _ _ _ hss] at h
      rw [List.cons_append, hasOption_cons_pos _ _ _ _ hss]
      exact h
    | false =>
      rw [hasOption_cons_neg _ _ _ _ hss] at h
      rw [List.cons_append, hasOption_cons_neg _ _ _ _ hss]
      exact ih h

theorem hasOption_append_new (d : ConfigDoc) (s : String)
    (o : ConfigOptions) (k : String) (h : hasSection d s = false) :
    hasOption (d ++ [(s, o)]) s k = optHas o k := by
  induction d with
  | nil => simp [hasOption, List.find?]
  | cons sec rest ih =>
    rw [hasSection_cons, Bool.or_eq_false_iff] at h
    rw [List.cons_append, hasOption_cons_neg _ _ _ _ h.1]
    exact ih h.2

theorem docGet_docSet_self (d : ConfigDoc) (s k v : String)
    (h : hasSection d s = true) :
    docGet (docSet d s k v) s k = some v := by
  induction d with
  | nil => simp [hasSection] at h
  | cons sec rest ih =>
    cases hs : sec.1 == s with
    | true =>
      rw [docSet_cons_pos _ _ _ _ _ hs,
        docGet_cons_pos (sec.1, optSet sec.2 k v) rest s k hs,
        optGet_optSet_self]
    | false =>
      rw [hasSection_cons, hs, Bool.false_or] at h
      rw [docSet_cons_neg _ _ _ _ _ hs, docGet_cons_neg _ _ _ _ hs]
      exact ih h

theorem docGet_docSet_preserve (d : ConfigDoc) (s' k' v' s k : String)
    (h : ¬(s' = s ∧ k' = k)) :
    docGet (docSet d s' k' v') s k = docGet d s k := by
  induction d with
  | nil => simp [docSet]
  | cons sec rest ih =>
    cases hs : sec.1 == s' with
    | true =>
      have h1 : sec.1 = s' := by simpa using hs
      cases hss : sec.1 == s with
      | true =>
        have h2 : sec.1 = s := by simpa using hss
        have hkk : k' ≠ k := fun hk => h ⟨by rw [← h1, h2], hk⟩
        rw [docSet_cons_pos _ _ _ _ _ hs,
          docGet_cons_pos (sec.1, optSet sec.2 k' v') rest s k hss,
          docGet_cons_pos _ _ _ _ hss]
        exact optGet_optSet_other _ _ _ _ hkk
      | false =>
        rw [docSet_cons_pos _ _ _ _ _ hs,
          docGet_cons_neg (sec.1, optSet sec.2 k' v') rest s k hss,
          docGet_cons_neg _ _ _ _ hss]
    | false =>
      cases hss : sec.1 == s with
      | true =>
        rw [docSet_cons_neg _ _ _ _ _ hs, docGet_cons_pos _ _ _ _ hss,
          docGet_cons_pos _ _ _ _ hss]
      | false =>
        rw [docSet_cons_neg _ _ _ _ _ hs, docGet_cons_neg _ _ _ _ hss,
          docGet_cons_neg _ _ _ _ hss]
        exact ih

theorem docGet_append_left (d l : ConfigDoc) (s k : String)
    (h : hasSection d s = true) :
    docGet (d ++ l) s k = docGet d s k := by
  induction d with
  | nil => simp [hasSection] at h
  | cons sec rest ih =>
    cases hss : sec.1 == s with
    | true =>
      rw [List.cons_append, docGet_cons_pos _ _ _ _ hss,
        docGet_cons_pos _ _ _ _ hss]
    | false =>
      rw [hasSection_cons, hss, Bool.false_or] at h
      rw [List.cons_append, docGet_cons_neg _ _ _ _ hss,
        docGet_cons_neg _ _ _ _ hss]
      exact ih h

theorem docGet_append_right (d l : ConfigDoc) (s k : String)
    (h : hasSection d s = false) :
    docGet (d ++ l) s k = docGet l s k := by
  induction d with
  | nil => simp
  | cons sec rest ih =>
    rw [hasSection_cons, Bool.or_eq_false_iff] at h
    rw [List.cons_append, docGet_cons_neg _ _ _ _ h.1]
    exact ih h.2

theorem hasSection_of_hasOption (d : ConfigDoc) (s k : String)
    (h : hasOption d s k = true) :
    hasSection d s = true := by
  induction d with
  | nil => simp [hasOption] at h
  | cons sec rest ih =>
    cases hss : sec.1 == s with
    | true => rw [hasSection_cons, hss, Bool.true_or]
    | false =>
      rw [hasOption_cons_neg _ _ _ _ hss] at h
      rw [hasSection_cons, hss, Bool.false_or]
      exact ih h

theorem hasOption_eq_isSome (d : ConfigDoc) (s k : String) :
    hasOption d s k = (docGet d s k).isSome := by
  induction d with
  | nil => simp [hasOption, docGet]
  | cons sec rest ih =>
    cases hss : sec.1 == s with
    | true =>
      rw [hasOption_cons_pos _ _ _ _ hss, docGet_cons_pos _ _ _ _ hss]
      exact optHas_iff_isSome _ _
    | false =>
      rw [hasOption_cons_neg _ _ _ _ hss, docGet_cons_neg _ _ _ _ hss]
      exact ih

/-! ## Helper lemmas: `validate_config` -/

theorem validateOpts_nil (s : String) (doc : ConfigDoc) (dirty : Bool) :
    validateOpts s [] (doc, dirty) = (doc, dirty) := rfl

theorem validateOpts_cons (s k v : String) (rest : ConfigOptions)
    (doc : ConfigDoc) (dirty : Bool) :
    validateOpts s ((k, v) :: rest) (doc, dirty) =
      if hasOption doc s k = true then validateOpts s rest (doc, dirty)
      else validateOpts s rest (docSet doc s k v, true) := rfl

theorem validateSections_nil (doc : ConfigDoc) (dirty : Bool) :
    validateSections [] (doc, dirty) = (doc, dirty) := rfl

theorem validateSections_cons (s : String) (opts : ConfigOptions)
    (rest : ConfigDoc) (doc : ConfigDoc) (dirty : Bool) :
    validateSections ((s, opts) :: rest) (doc, dirty) =
      if hasSection doc s = true then
        validateSections rest (validateOpts s opts (doc, dirty))
      else validateSections rest (doc ++ [(s, buildSection opts)], true) := rfl

theorem validateOpts_fst_hasSection (s : String) (opts : ConfigOptions) :
    ∀ (doc : ConfigDoc) (dirty : Bool) (s' : String),
    hasSection (validateOpts s opts (doc, dirty)).1 s' = hasSection doc s' := by
  induction opts with
  | nil => intro doc dirty s'; rw [validateOpts_nil]
  | cons kv rest ih =>
    intro doc dirty s'
    cases h : hasOption doc s kv.1 with
    | true => rw [validateOpts_cons, if_beq_true h, ih]
    | false =>
      rw [validateOpts_cons, if_beq_false h, ih, hasSection_docSet]

theorem validateOpts_hasOption_mono (s : String) (opts : ConfigOptions) :
    ∀ (doc : ConfigDoc) (dirty : Bool) (s' k' : String),
    hasOption doc s' k' = true →
    hasOption (validateOpts s opts (doc, dirty)).1 s' k' = true := by
  induction opts with
  | nil => intro doc dirty s' k' h; rw [validateOpts_nil]; exact h
  | cons kv rest ih =>
    intro doc dirty s' k' h
    cases hk : hasOption doc s kv.1 with
    | true => rw [validateOpts_cons, if_beq_true hk]; exact ih _ _ _ _ h
    | false =>
      rw [validateOpts_cons, if_beq_false hk]
      exact ih _ _ _ _ (hasOption_docSet_mono _ _ _ _ _ _ h)

theorem validateOpts_ensures (s : String) (opts : ConfigOptions) :
    ∀ (doc : ConfigDoc) (dirty : Bool),
    hasSection doc s = true → ∀ kv, kv ∈ opts →
    hasOption (validateOpts s opts (doc, dirty)).1 s kv.1 = true := by
  induction opts with
  | nil => intro doc dirty _ kv hmem; simp at hmem
  | cons kv0 rest ih =>
    intro doc dirty hsec kv hmem
    cases hk : hasOption doc s kv0.1 with
    | true =>
      rw [validateOpts_cons, if_beq_true hk]
      rcases List.mem_cons.mp hmem with rfl | hmem'
      · exact validateOpts_hasOption_mono _ _ _ _ _ _ hk
      · exact ih _ _ hsec _ hmem'
    | false =>
      rw [validateOpts_cons, if_beq_false hk]
      rcases List.mem_cons.mp hmem with rfl | hmem'
      · exact validateOpts_hasOption_mono _ _ _ _ _ _
          (hasOption_docSet_self _ _ _ _ hsec)
      · exact ih _ _ (by rw [hasSection_docSet]; exact hsec) _ hmem'

theorem validateOpts_docGet_preserve (s : String) (opts : ConfigOptions) :
    ∀ (doc : ConfigDoc) (dirty : Bool) (s' k' v' : String),
    docGet doc s' k' = some v' →
    docGet (validateOpts s opts (doc, dirty)).1 s' k' = some v' := by
  induction opts with
  | nil => intro doc dirty s' k' v' h; rw [validateOpts_nil]; exact h
  | cons kv rest ih =>
    intro doc dirty s' k' v' h
    cases hk : hasOption doc s kv.1 with
    | true => rw [validateOpts_cons, if_beq_true hk]; exact ih _ _ _ _ _ h
    | false =>
      rw [validateOpts_cons, if_beq_false hk]
      refine ih _ _ _ _ _ ?_
      rw [docGet_docSet_preserve]
      · exact h
      · rintro ⟨rfl, rfl⟩
        rw [hasOption_eq_isSome, h] at hk
        simp at hk

theorem validateOpts_dirty_mono (s : String) (opts : ConfigOptions) :
    ∀ (doc : ConfigDoc),
    (validateOpts s opts (doc, true)).2 = true := by
  induction opts with
  | nil => intro doc; rw [validateOpts_nil]
  | cons kv rest ih =>
    intro doc
    cases hk : hasOption doc s kv.1 with
    | true => rw [validateOpts_cons, if_beq_true hk]; exact ih _
    | false => rw [validateOpts_cons, if_beq_false hk]; exact ih _

theorem validateOpts_noop (s : String) (opts : ConfigOptions)
    (doc : ConfigDoc) (dirty : Bool)
    (h : ∀ kv, kv ∈ opts → hasOption doc s kv.1 = true) :
    validateOpts s opts (doc, dirty) = (doc, dirty) := by
  induction opts with
  | nil => rw [validateOpts_nil]
  | cons kv rest ih =>
    rw [validateOpts_cons, if_beq_true (h kv (by simp))]
    exact ih (fun kv' hm => h kv' (List.mem_cons_of_mem _ hm))

theorem foldl_optSet_mono (opts : ConfigOptions) :
    ∀ (init : ConfigOptions) (k : String),
    optHas init k = true →
    optHas (opts.foldl (fun o kv => optSet o kv.1 kv.2) init) k = true := by
  induction opts with
  | nil => intro init k h; exact h
  | cons kv rest ih =>
    intro init k h
    rw [List.foldl_cons]
    exact ih _ _ (by rw [optHas_optSet, h, Bool.true_or])

theorem foldl_optSet_ensures (opts : ConfigOptions) :
    ∀ (init : ConfigOptions) (kv : String × String), kv ∈ opts →
    optHas (opts.foldl (fun o kv => optSet o kv.1 kv.2) init) kv.1 = true := by
  induction opts with
  | nil => intro init kv hmem; simp at hmem
  | cons kv0 rest ih =>
    intro init kv hmem
    rw [List.foldl_cons]
    rcases List.mem_cons.mp hmem with rfl | hmem'
    · refine foldl_optSet_mono _ _ _ ?_
      rw [optHas_optSet]
      simp
    · exact ih _ _ hmem'

theorem buildSection_optHas (opts : ConfigOptions) (kv : String × String)
    (hmem : kv ∈ opts) :
    optHas (buildSection opts) kv.1 = true :=
  foldl_optSet_ensures opts [] kv hmem

theorem validateSections_hasSection_mono (defaults : ConfigDoc) :
    ∀ (doc : ConfigDoc) (dirty : Bool) (s' : String),
    hasSection doc s' = true →
    hasSection (validateSections defaults (doc, dirty)).1 s' = true := by
  induction defaults with
  | nil => intro doc dirty s' h; rw [validateSections_nil]; exact h
  | cons sec rest ih =>
    intro doc dirty s' h
    cases hs : hasSection doc sec.1 with
    | true =>
      rw [validateSections_cons, if_beq_true hs]
      exact ih _ _ _ (by rw [validateOpts_fst_hasSection]; exact h)
    | false =>
      rw [validateSections_cons, if_beq_false hs]
      exact ih _ _ _ (by rw [hasSection_append, h, Bool.true_or])

theorem validateSections_hasOption_mono (defaults : ConfigDoc) :
    ∀ (doc : ConfigDoc) (dirty : Bool) (s' k' : String),
    hasOption doc s' k' = true →
    hasOption (validateSections defaults (doc, dirty)).1 s' k' = true := by
  induction defaults with
  | nil => intro doc dirty s' k' h; rw [validateSections_nil]; exact h
  | cons sec rest ih =>
    intro doc dirty s' k' h
    cases hs : hasSection doc sec.1 with
    | true =>
      rw [validateSections_cons, if_beq_true hs]
      exact ih _ _ _ _ (validateOpts_hasOption_mono _ _ _ _ _ _ h)
    | false =>
      rw [validateSections_cons, if_beq_false hs]
      exact ih _ _ _ _ (hasOption_append_mono _ _ _ _ h)

theorem validateSections_docGet_preserve (defaults : ConfigDoc) :
    ∀ (doc : ConfigDoc) (dirty : Bool) (s' k' v' : String),
    docGet doc s' k' = some v' →
    docGet (validateSections defaults (doc, dirty)).1 s' k' = some v' := by
  induction defaults with
  | nil => intro doc dirty s' k' v' h; rw [validateSections_nil]; exact h
  | cons sec rest ih =>
    intro doc dirty s' k' v' h
    cases hs : hasSection doc sec.1 with
    | true =>
      rw [validateSections_cons, if_beq_true hs]
      exact ih _ _ _ _ _ (validateOpts_docGet_preserve _ _ _ _ _ _ _ h)
    | false =>
      rw [validateSections_cons, if_beq_false hs]
      refine ih _ _ _ _ _ ?_
      rw [docGet_append_left]
      · exact h
      · refine hasSection_of_hasOption _ _ k' ?_
        rw [hasOption_eq_isSome, h]
        rfl

theorem validateSections_dirty_mono (defaults : ConfigDoc) :
    ∀ (doc : ConfigDoc),
    (validateSections defaults (doc, true)).2 = true := by
  induction defaults with
  | nil => intro doc; rw [validateSections_nil]
  | cons sec rest ih =>
    intro doc
    cases hs : hasSection doc sec.1 with
    | true =>
      rw [validateSections_cons, if_beq_true hs]
      have h2 : validateOpts sec.1 sec.2 (doc, true) =
          ((validateOpts sec.1 sec.2 (doc, true)).1, true) := by
        have := validateOpts_dirty_mono sec.1 sec.2 doc
        exact Prod.ext rfl this
      rw [h2]
      exact ih _
    | false =>
      rw [validateSections_cons, if_beq_false hs]
      exact ih _

theorem validateSections_ensures (defaults : ConfigDoc) :
    ∀ (doc : ConfigDoc) (dirty : Bool) (sec : String × ConfigOptions),
    sec ∈ defaults →
    hasSection (validateSections defaults (doc, dirty)).1 sec.1 = true ∧
    ∀ kv, kv ∈ sec.2 →
      hasOption (validateSections defaults (doc, dirty)).1 sec.1 kv.1 = true := by
  induction defaults with
  | nil => intro doc dirty sec hmem; simp at hmem
  | cons sec0 rest ih =>
    intro doc dirty sec hmem
    cases hs : hasSection doc sec0.1 with
    | true =>
      rw [validateSections_cons, if_beq_true hs]
      rcases List.mem_cons.mp hmem with rfl | hmem'
      · constructor
        · exact validateSections_hasSection_mono _ _ _ _
            (by rw [validateOpts_fst_hasSection]; exact hs)
        · intro kv hkv
          exact validateSections_hasOption_mono _ _ _ _ _
            (validateOpts_ensures _ _ _ _ hs _ hkv)
      · exact ih _ _ _ hmem'
    | false =>
      rw [validateSections_cons, if_beq_false hs]
      rcases List.mem_cons.mp hmem with rfl | hmem'
      · constructor
        · exact validateSections_hasSection_mono _ _ _ _
            (by rw [hasSection_append, hasSection_cons]; simp)
        · intro kv hkv
          refine validateSections_hasOption_mono _ _ _ _ _ ?_
          rw [hasOption_append_new _ _ _ _ hs]
          exact buildSection_optHas _ _ hkv
      · exact ih _ _ _ hmem'

theorem validateSections_noop (defaults : ConfigDoc) :
    ∀ (doc : ConfigDoc) (dirty : Bool),
    (∀ sec, sec ∈ defaults →
      hasSection doc sec.1 = true ∧
      ∀ kv, kv ∈ sec.2 → hasOption doc sec.1 kv.1 = true) →
    validateSections defaults (doc, dirty) = (doc, dirty) := by
  induction defaults with
  | nil => intro doc dirty _; rw [validateSections_nil]
  | cons sec0 rest ih =>
    intro doc dirty h
    have h0 := h sec0 (by simp)
    rw [validateSections_cons, if_beq_true h0.1,
      validateOpts_noop _ _ _ _ h0.2]
    exact ih _ _ (fun sec hm => h sec (List.mem_cons_of_mem _ hm))

theorem versionPass_unfold (defaults doc : ConfigDoc) (dirty : Bool) :
    versionPass defaults (doc, dirty) =
      match docGet defaults "DEBUG" "version" with
      | none =>
        if hasSection doc "DEBUG" = true then (doc, dirty)
        else (addSection doc "DEBUG", true)
      | some v =>
        if (docGet (if hasSection doc "DEBUG" = true then (doc, dirty)
            else (addSection doc "DEBUG", true)).1 "DEBUG" "version"
            == some v) = true then
          (if hasSection doc "DEBUG" = true then (doc, dirty)
           else (addSection doc "DEBUG", true))
        else
          (docSet (if hasSection doc "DEBUG" = true then (doc, dirty)
            else (addSection doc "DEBUG", true)).1 "DEBUG" "version" v,
           true) := rfl

theorem versionPass_eq_none (defaults doc : ConfigDoc) (dirty : Bool)
    (hdv : docGet defaults "DEBUG" "version" = none) :
    versionPass defaults (doc, dirty) =
      (if hasSection doc "DEBUG" = true then (doc, dirty)
       else (addSection doc "DEBUG", true)) := by
  rw [versionPass_unfold, hdv]

theorem versionPass_eq_some (defaults doc : ConfigDoc) (dirty : Bool)
    (v : String) (hdv : docGet defaults "DEBUG" "version" = some v) :
    versionPass defaults (doc, dirty) =
      (if (docGet (if hasSection doc "DEBUG" = true then (doc, dirty)
          else (addSection doc "DEBUG", true)).1 "DEBUG" "version"
          == some v) = true then
        (if hasSection doc "DEBUG" = true then (doc, dirty)
         else (addSection doc "DEBUG", true))
      else
        (docSet (if hasSection doc "DEBUG" = true then (doc, dirty)
          else (addSection doc "DEBUG", true)).1 "DEBUG" "version" v,
         true)) := by
  rw [versionPass_unfold, hdv]

theorem versionPass_dirty_mono (defaults doc : ConfigDoc) :
    (versionPass defaults (doc, true)).2 = true := by
  cases hdv : docGet defaults "DEBUG" "version" with
  | none =>
    rw [versionPass_eq_none _ _ _ hdv]
    cases hdbg : hasSection doc "DEBUG" with
    | true => rw [if_beq_true rfl]
    | false => rw [if_beq_false rfl]
  | some v =>
    rw [versionPass_eq_some _ _ _ _ hdv]
    cases hdbg : hasSection doc "DEBUG" with
    | true =>
      rw [if_beq_true (rfl : (true : Bool) = true)]
      cases hcur : (docGet (doc, true).1 "DEBUG" "version" == some v) with
      | true => rw [if_beq_true rfl]
      | false => rw [if_beq_false rfl]
    | false =>
      rw [if_beq_false (rfl : (false : Bool) = false)]
      cases hcur : (docGet (addSection doc "DEBUG", true).1 "DEBUG" "version"
          == some v) with
      | true => rw [if_beq_true rfl]
      | false => rw [if_beq_false rfl]

theorem versionPass_hasSection_mono (defaults doc : ConfigDoc) (dirty : Bool)
    (s' : String) (h : hasSection doc s' = true) :
    hasSection (versionPass defaults (doc, dirty)).1 s' = true := by
  have hadd : hasSection (addSection doc "DEBUG") s' = true := by
    rw [hasSection_addSection, h, Bool.true_or]
  cases hdv : docGet defaults "DEBUG" "version" with
  | none =>
    rw [versionPass_eq_none _ _ _ hdv]
    cases hdbg : hasSection doc "DEBUG" with
    | true => rw [if_beq_true rfl]; exact h
    | false => rw [if_beq_false rfl]; exact hadd
  | some v =>
    rw [versionPass_eq_some _ _ _ _ hdv]
    cases hdbg : hasSection doc "DEBUG" with
    | true =>
      rw [if_beq_true (rfl : (true : Bool) = true)]
      cases hcur : (docGet (doc, dirty).1 "DEBUG" "version" == some v) with
      | true => rw [if_beq_true rfl]; exact h
      | false => rw [if_beq_false rfl]; rw [hasSection_docSet]; exact h
    | false =>
      rw [if_beq_false (rfl : (false : Bool) = false)]
      cases hcur : (docGet (addSection doc "DEBUG", true).1 "DEBUG" "version"
          == some v) with
      | true => rw [if_beq_true rfl]; exact hadd
      | false => rw [if_beq_false rfl]; rw [hasSection_docSet]; exact hadd

theorem versionPass_hasOption_mono (defaults doc : ConfigDoc) (dirty : Bool)
    (s' k' : String) (h : hasOption doc s' k' = true) :
    hasOption (versionPass defaults (doc, dirty)).1 s' k' = true := by
  have hadd : hasOption (addSection doc "DEBUG") s' k' = true :=
    hasOption_append_mono _ _ _ _ h
  cases hdv : docGet defaults "DEBUG" "version" with
  | none =>
    rw [versionPass_eq_none _ _ _ hdv]
    cases hdbg : hasSection doc "DEBUG" with
    | true => rw [if_beq_true rfl]; exact h
    | false => rw [if_beq_false rfl]; exact hadd
  | some v =>
    rw [versionPass_eq_some _ _ _ _ hdv]
    cases hdbg : hasSection doc "DEBUG" with
    | true =>
      rw [if_beq_true (rfl : (true : Bool) = true)]
      cases hcur : (docGet (doc, dirty).1 "DEBUG" "version" == some v) with
      | true => rw [if_beq_true rfl]; exact h
      | false =>
        rw [if_beq_false rfl]
        exact hasOption_docSet_mono _ _ _ _ _ _ h
    | false =>
      rw [if_beq_false (rfl : (false : Bool) = false)]
      cases hcur : (docGet (addSection doc "DEBUG", true).1 "DEBUG" "version"
          == some v) with
      | true => rw [if_beq_true rfl]; exact hadd
      | false =>
        rw [if_beq_false rfl]
        exact hasOption_docSet_mono _ _ _ _ _ _ hadd

theorem versionPass_docGet_preserve (defaults doc : ConfigDoc)
    (dirty : Bool) (s' k' v' : String)
    (hne : ¬(s' = "DEBUG" ∧ k' = "version"))
    (h : docGet doc s' k' = some v') :
    docGet (versionPass defaults (doc, dirty)).1 s' k' = some v' := by
  have hsec : hasSection doc s' = true := by
    refine hasSection_of_hasOption _ _ k' ?_
    rw [hasOption_eq_isSome, h]
    rfl
  have hadd : docGet (addSection doc "DEBUG") s' k' = some v' := by
    rw [addSection, docGet_append_left _ _ _ _ hsec]
    exact h
  have hne' : ¬("DEBUG" = s' ∧ "version" = k') := by
    rintro ⟨rfl, rfl⟩
    exact hne ⟨rfl, rfl⟩
  cases hdv : docGet defaults "DEBUG" "version" with
  | none =>
    rw [versionPass_eq_none _ _ _ hdv]
    cases hdbg : hasSection doc "DEBUG" with
    | true => rw [if_beq_true rfl]; exact h
    | false => rw [if_beq_false rfl]; exact hadd
  | some v =>
    rw [versionPass_eq_some _ _ _ _ hdv]
    cases hdbg : hasSection doc "DEBUG" with
    | true =>
      rw [if_beq_true (rfl : (true : Bool) = true)]
      cases hcur : (docGet (doc, dirty).1 "DEBUG" "version" == some v) with
      | true => rw [if_beq_true rfl]; exact h
      | false =>
        rw [if_beq_false rfl, docGet_docSet_preserve _ _ _ _ _ _ hne']
        exact h
    | false =>
      rw [if_beq_false (rfl : (false : Bool) = false)]
      cases hcur : (docGet (addSection doc "DEBUG", true).1 "DEBUG" "version"
          == some v) with
      | true => rw [if_beq_true rfl]; exact hadd
      | false =>
        rw [if_beq_false rfl, docGet_docSet_preserve _ _ _ _ _ _ hne']
        exact hadd

theorem versionPass_hasSection_debug (defaults doc : ConfigDoc)
    (dirty : Bool) :
    hasSection (versionPass defaults (doc, dirty)).1 "DEBUG" = true := by
  have hadd : hasSection (addSection doc "DEBUG") "DEBUG" = true := by
    rw [hasSection_addSection]
    simp
  cases hdv : docGet defaults "DEBUG" "version" with
  | none =>
    rw [versionPass_eq_none _ _ _ hdv]
    cases hdbg : hasSection doc "DEBUG" with
    | true => rw [if_beq_true rfl]; exact hdbg
    | false => rw [if_beq_false rfl]; exact hadd
  | some v =>
    rw [versionPass_eq_some _ _ _ _ hdv]
    cases hdbg : hasSection doc "DEBUG" with
    | true =>
      rw [if_beq_true (rfl : (true : Bool) = true)]
      cases hcur : (docGet (doc, dirty).1 "DEBUG" "version" == some v) with
      | true => rw [if_beq_true rfl]; exact hdbg
      | false => rw [if_beq_false rfl]; rw [hasSection_docSet]; exact hdbg
    | false =>
      rw [if_beq_false (rfl : (false : Bool) = false)]
      cases hcur : (docGet (addSection doc "DEBUG", true).1 "DEBUG" "version"
          == some v) with
      | true => rw [if_beq_true rfl]; exact hadd
      | false => rw [if_beq_false rfl]; rw [hasSection_docSet]; exact hadd

theorem versionPass_version (defaults doc : ConfigDoc) (dirty : Bool)
    (v : String) (hdv : docGet defaults "DEBUG" "version" = some v) :
    docGet (versionPass defaults (doc, dirty)).1 "DEBUG" "version"
      = some v := by
  have hadd : hasSection (addSection doc "DEBUG") "DEBUG" = true := by
    rw [hasSection_addSection]
    simp
  rw [versionPass_eq_some _ _ _ _ hdv]
  cases hdbg : hasSection doc "DEBUG" with
  | true =>
    rw [if_beq_true (rfl : (true : Bool) = true)]
    cases hcur : (docGet (doc, dirty).1 "DEBUG" "version" == some v) with
    | true =>
      rw [if_beq_true rfl]
      simpa using hcur
    | false =>
      rw [if_beq_false rfl]
      exact docGet_docSet_self _ _ _ _ hdbg
  | false =>
    rw [if_beq_false (rfl : (false : Bool) = false)]
    cases hcur : (docGet (addSection doc "DEBUG", true).1 "DEBUG" "version"
        == some v) with
    | true =>
      rw [if_beq_true rfl]
      simpa using hcur
    | false =>
      rw [if_beq_false rfl]
      exact docGet_docSet_self _ _ _ _ hadd

theorem versionPass_noop (defaults doc : ConfigDoc) (dirty : Bool)
    (hdbg : hasSection doc "DEBUG" = true)
    (hver : ∀ v, docGet defaults "DEBUG" "version" = some v →
      docGet doc "DEBUG" "version" = some v) :
    versionPass defaults (doc, dirty) = (doc, dirty) := by
  cases hdv : docGet defaults "DEBUG" "version" with
  | none =>
    rw [versionPass_eq_none _ _ _ hdv, if_beq_true hdbg]
  | some v =>
    rw [versionPass_eq_some _ _ _ _ hdv, if_beq_true hdbg]
    have hcur : (docGet (doc, dirty).1 "DEBUG" "version" == some v) = true := by
      have := hver v hdv
      simp only [this]
      simp
    rw [if_beq_true hcur]

theorem validate_config_eq (defaults d : ConfigDoc) :
    validate_config defaults d =
      ⟨(versionPass defaults (validateSections defaults (d, false))).1,
       (versionPass defaults (validateSections defaults (d, false))).2,
       (if (validateSections defaults (d, false)).2 then 1 else 0)
         + (if (versionPass defaults
              (validateSections defaults (d, false))).2 then 1 else 0)⟩ :=
  rfl

theorem validate_config_doc_hasSection_defaults (defaults d : ConfigDoc)
    (sec : String × ConfigOptions) (hmem : sec ∈ defaults) :
    hasSection (validate_config defaults d).doc sec.1 = true := by
  rw [validate_config_eq]
  exact versionPass_hasSection_mono defaults
    (validateSections defaults (d, false)).1
    (validateSections defaults (d, false)).2 sec.1
    (validateSections_ensures defaults d false sec hmem).1

theorem validate_config_doc_hasOption_defaults (defaults d : ConfigDoc)
    (sec : String × ConfigOptions) (hmem : sec ∈ defaults)
    (kv : String × String) (hkv : kv ∈ sec.2) :
    hasOption (validate_config defaults d).doc sec.1 kv.1 = true := by
  rw [validate_config_eq]
  exact versionPass_hasOption_mono defaults
    (validateSections defaults (d, false)).1
    (validateSections defaults (d, false)).2 sec.1 kv.1
    ((validateSections_ensures defaults d false sec hmem).2 kv hkv)

/-- C7: after every `validate_config` pass on a readable document, every
section and key of the compiled-in default schema exists in the
persisted document; validation never deletes a section or key (user
additions included) and never alters an existing value of any key other
than `DEBUG/version` — it is additive-only. -/
theorem validate_config_additive_only (defaults d : ConfigDoc) :
    (∀ sec, sec ∈ defaults →
      hasSection (validate_config defaults d).doc sec.1 = true ∧
      ∀ kv, kv ∈ sec.2 →
        hasOption (validate_config defaults d).doc sec.1 kv.1 = true) ∧
    (∀ s, hasSection d s = true →
      hasSection (validate_config defaults d).doc s = true) ∧
    (∀ s k, hasOption d s k = true →
      hasOption (validate_config defaults d).doc s k = true) ∧
    (∀ s k v, docGet d s k = some v → ¬(s = "DEBUG" ∧ k = "version") →
      docGet (validate_config defaults d).doc s k = some v) := by
  refine ⟨?_, ?_, ?_, ?_⟩
  · intro sec hmem
    exact ⟨validate_config_doc_hasSection_defaults defaults d sec hmem,
      fun kv hkv =>
        validate_config_doc_hasOption_defaults defaults d sec hmem kv hkv⟩
  · intro s h
    rw [validate_config_eq]
    exact versionPass_hasSection_mono defaults _ _ s
      (validateSections_hasSection_mono defaults d false s h)
  · intro s k h
    rw [validate_config_eq]
    exact versionPass_hasOption_mono defaults _ _ s k
      (validateSections_hasOption_mono defaults d false s k h)
  · intro s k v h hne
    rw [validate_config_eq]
    exact versionPass_docGet_preserve defaults _ _ s k v hne
      (validateSections_docGet_preserve defaults d false s k v h)

/-- Witness for C7 at a concrete document: a user section `MINE` and a
customised `GUI/stylesheet` survive validation, and the missing default
`FILETYPE/recursive` is added. -/
theorem validate_config_additive_only_witness :
    hasOption (validate_config default_config
      [("GUI", [("stylesheet", "mine.xml")]),
       ("MINE", [("x", "1")])]).doc "FILETYPE" "recursive" = true ∧
    hasSection (validate_config default_config
      [("GUI", [("stylesheet", "mine.xml")]),
       ("MINE", [("x", "1")])]).doc "MINE" = true ∧
    docGet (validate_config default_config
      [("GUI", [("stylesheet", "mine.xml")]),
       ("MINE", [("x", "1")])]).doc "GUI" "stylesheet"
      = some "mine.xml" := by
  have h := validate_config_additive_only default_config
    [("GUI", [("stylesheet", "mine.xml")]), ("MINE", [("x", "1")])]
  refine ⟨?_, ?_, ?_⟩
  · have hf := h.1 ("FILETYPE",
      [("accepted_types", ".exe"), ("blacklisted_names", ""),
       ("recursive", "True")]) (by simp [default_config])
    exact hf.2 ("recursive", "True") (by simp)
  · exact h.2.1 "MINE" (by decide)
  · exact h.2.2.2 "GUI" "stylesheet" "mine.xml" (by decide) (by decide)

theorem versionPass_pair_eta (defaults : ConfigDoc) (p : ConfigDoc × Bool) :
    versionPass defaults p = versionPass defaults (p.1, p.2) :=
  rfl

theorem validate_config_doc_complete (defaults d : ConfigDoc) :
    ∀ sec, sec ∈ defaults →
      hasSection (validate_config defaults d).doc sec.1 = true ∧
      ∀ kv, kv ∈ sec.2 →
        hasOption (validate_config defaults d).doc sec.1 kv.1 = true :=
  fun sec hmem =>
    ⟨validate_config_doc_hasSection_defaults defaults d sec hmem,
     fun kv hkv =>
       validate_config_doc_hasOption_defaults defaults d sec hmem kv hkv⟩

theorem validate_config_doc_debug (defaults d : ConfigDoc) :
    hasSection (validate_config defaults d).doc "DEBUG" = true := by
  rw [validate_config_eq]
  exact versionPass_hasSection_debug defaults _ _

theorem validate_config_doc_version (defaults d : ConfigDoc) (v : String)
    (hdv : docGet defaults "DEBUG" "version" = some v) :
    docGet (validate_config defaults d).doc "DEBUG" "version" = some v := by
  rw [validate_config_eq]
  exact versionPass_version defaults _ _ v hdv

/-- C8: `validate_config` writes the document back to disk iff it marked
the document dirty, and a second run on the document produced by a
first run performs no disk write at all. -/
theorem validate_config_write_iff_dirty (defaults d : ConfigDoc) :
    (0 < (validate_config defaults d).writes ↔
      (validate_config defaults d).dirty = true) ∧
    (validate_config defaults (validate_config defaults d).doc).writes
      = 0 := by
  constructor
  · rw [validate_config_eq]
    cases hp2 : (versionPass defaults (validateSections defaults
        (d, false))).2 with
    | true => simp [hp2]
    | false =>
      cases hp1 : (validateSections defaults (d, false)).2 with
      | true =>
        exfalso
        have hmono : (versionPass defaults
            (validateSections defaults (d, false))).2 = true := by
          rw [versionPass_pair_eta, hp1]
          exact versionPass_dirty_mono defaults _
        rw [hmono] at hp2
        exact Bool.noConfusion hp2
      | false => simp [hp1, hp2]
  · have hnoop1 : validateSections defaults
        ((validate_config defaults d).doc, false)
        = ((validate_config defaults d).doc, false) := by
      refine validateSections_noop defaults _ false ?_
      intro sec hmem
      exact validate_config_doc_complete defaults d sec hmem
    have hnoop2 : versionPass defaults
        ((validate_config defaults d).doc, false)
        = ((validate_config defaults d).doc, false) := by
      refine versionPass_noop defaults _ false
        (validate_config_doc_debug defaults d) ?_
      intro v hdv
      exact validate_config_doc_version defaults d v hdv
    rw [validate_config_eq defaults (validate_config defaults d).doc,
      hnoop1, hnoop2]
    rfl

/-! ## Helper lemmas: Python string codec -/

theorem dropWhile_idem (p : Char → Bool) (l : List Char) :
    List.dropWhile p (List.dropWhile p l) = List.dropWhile p l := by
  induction l with
  | nil => rfl
  | cons c rest ih =>
    rw [List.dropWhile_cons]
    cases h : p c with
    | true => rw [if_beq_true rfl]; exact ih
    | false =>
      rw [if_beq_false rfl, List.dropWhile_cons, if_beq_false h]

theorem dropWhile_eq_self_of_prefix (p : Char → Bool) (l t : List Char)
    (hl : List.dropWhile p l = l) (ht : t <+: l) :
    List.dropWhile p t = t := by
  cases t with
  | nil => rfl
  | cons c rest =>
    rcases ht with ⟨post, hpost⟩
    have hc : p c = false := by
      rw [← hpost, List.cons_append, List.dropWhile_cons] at hl
      cases h : p c with
      | true =>
        rw [if_beq_true h] at hl
        exfalso
        have hlen : (List.dropWhile p (rest ++ post)).length
            = (rest ++ post).length + 1 := by
          rw [hl]
          simp
        have hle := (List.dropWhile_sublist (l := rest ++ post) p).length_le
        omega
      | false => rfl
    rw [List.dropWhile_cons, if_beq_false hc]

theorem trimChars_sublist (l : List Char) : (trimChars l).Sublist l := by
  unfold trimChars
  have h2 : (List.dropWhile isPySpace
      (List.dropWhile isPySpace l).reverse).Sublist
      (List.dropWhile isPySpace l).reverse :=
    List.dropWhile_sublist _
  have h3 := h2.reverse
  rw [List.reverse_reverse] at h3
  exact h3.trans (List.dropWhile_sublist _)

theorem trimChars_idem (l : List Char) :
    trimChars (trimChars l) = trimChars l := by
  unfold trimChars
  set t1 := List.dropWhile isPySpace l with ht1
  set r := List.dropWhile isPySpace t1.reverse with hr
  have hnoLead : List.dropWhile isPySpace t1 = t1 := dropWhile_idem _ _
  have hrpre : r.reverse <+: t1 := by
    have hsuf : r <:+ t1.reverse := List.dropWhile_suffix _
    have h4 := List.reverse_prefix.mpr hsuf
    rwa [List.reverse_reverse] at h4
  have h1 : List.dropWhile isPySpace r.reverse = r.reverse :=
    dropWhile_eq_self_of_prefix _ _ _ hnoLead hrpre
  rw [h1]
  have h2 : List.dropWhile isPySpace r.reverse.reverse = r := by
    rw [List.reverse_reverse, hr]
    exact dropWhile_idem _ _
  rw [h2]

theorem trimChars_cons_space (c : Char) (l : List Char)
    (h : isPySpace c = true) :
    trimChars (c :: l) = trimChars l := by
  unfold trimChars
  rw [List.dropWhile_cons, if_beq_true h]

theorem trimChars_subset (l : List Char) (c : Char)
    (h : ¬c ∈ l) : ¬c ∈ trimChars l :=
  fun hc => h ((trimChars_sublist l).subset hc)

theorem splitComma_ne_nil (l : List Char) : splitComma l ≠ [] := by
  cases l with
  | nil => simp [splitComma]
  | cons c rest =>
    rw [splitComma]
    cases h : c == ',' with
    | true => rw [if_beq_true rfl]; simp
    | false =>
      rw [if_beq_false rfl]
      cases hs : splitComma rest <;> simp

theorem mem_splitComma_no_comma (l : List Char) :
    ∀ g, g ∈ splitComma l → ¬(',' ∈ g) := by
  induction l with
  | nil => intro g hg; simp [splitComma] at hg; simp [hg]
  | cons c rest ih =>
    intro g hg
    rw [splitComma] at hg
    cases h : c == ',' with
    | true =>
      rw [if_beq_true h] at hg
      rcases List.mem_cons.mp hg with rfl | hg'
      · simp
      · exact ih g hg'
    | false =>
      rw [if_beq_false h] at hg
      rcases hsp : splitComma rest with _ | ⟨g0, gs⟩
      · exact absurd hsp (splitComma_ne_nil rest)
      · rw [hsp] at hg
        rcases List.mem_cons.mp hg with rfl | hg'
        · intro hmem
          rcases List.mem_cons.mp hmem with heq | hmem'
          · rw [← heq] at h
            simp at h
          · exact ih g0 (by rw [hsp]; simp) hmem'
        · exact ih g (by rw [hsp]; exact List.mem_cons_of_mem _ hg')

theorem splitComma_no_comma (l : List Char) (h : ¬(',' ∈ l)) :
    splitComma l = [l] := by
  induction l with
  | nil => rfl
  | cons c rest ih =>
    have hc : (c == ',') = false := by
      cases hcc : c == ',' with
      | true =>
        exact absurd (by rw [eq_of_beq hcc]; exact List.mem_cons_self _ _) h
      | false => rfl
    have hrest : ¬(',' ∈ rest) := fun hm => h (List.mem_cons_of_mem _ hm)
    rw [splitComma, if_beq_false hc, ih hrest]

theorem splitComma_append_comma (x r : List Char) (h : ¬(',' ∈ x)) :
    splitComma (x ++ ',' :: r) = x :: splitComma r := by
  induction x with
  | nil =>
    rw [List.nil_append, splitComma, if_beq_true (by simp)]
  | cons c rest ih =>
    have hc : (c == ',') = false := by
      cases hcc : c == ',' with
      | true =>
        exact absurd (by rw [eq_of_beq hcc]; exact List.mem_cons_self _ _) h
      | false => rfl
    have hrest : ¬(',' ∈ rest) := fun hm => h (List.mem_cons_of_mem _ hm)
    rw [List.cons_append, splitComma, if_beq_false hc, ih hrest]

theorem map_trimChars_splitComma_space (t : List Char) :
    (splitComma (' ' :: t)).map trimChars = (splitComma t).map trimChars := by
  rw [splitComma, if_beq_false (by simp)]
  rcases hsp : splitComma t with _ | ⟨g0, gs⟩
  · exact absurd hsp (splitComma_ne_nil t)
  · rw [List.map_cons, List.map_cons,
      trimChars_cons_space _ _ (by simp [isPySpace])]

theorem notEmpty_true (x : List Char) (hne : x ≠ []) :
    (!x.isEmpty) = true := by
  cases x with
  | nil => exact absurd rfl hne
  | cons a t => rfl

theorem parseChars_joinCommaSpace (L : List (List Char))
    (h : ∀ x, x ∈ L → x ≠ [] ∧ ¬(',' ∈ x) ∧ trimChars x = x) :
    parseChars (joinCommaSpace L) = L := by
  induction L with
  | nil => rfl
  | cons x xs ih =>
    rcases h x (by simp) with ⟨hne, hnc, htr⟩
    cases xs with
    | nil =>
      show parseChars (joinCommaSpace [x]) = [x]
      rw [joinCommaSpace]
      unfold parseChars
      rw [splitComma_no_comma x hnc, List.map_cons, List.map_nil, htr,
        List.filter_cons, if_beq_true (notEmpty_true x hne)]
      rfl
    | cons y ys =>
      have hx : joinCommaSpace (x :: y :: ys)
          = x ++ ',' :: ' ' :: joinCommaSpace (y :: ys) := rfl
      rw [hx]
      unfold parseChars
      rw [splitComma_append_comma _ _ hnc, List.map_cons, htr,
        List.filter_cons, if_beq_true (notEmpty_true x hne)]
      have hrest := ih (fun z hz => h z (List.mem_cons_of_mem _ hz))
      unfold parseChars at hrest
      rw [map_trimChars_splitComma_space, hrest]

/-! ## Helper lemmas: `append_config` -/

theorem bool_not_eq_false (b : Bool) : ((!b) = false) ↔ (b = true) := by
  cases b <;> simp

theorem contains_list_iff (l : List (List Char)) (a : List Char) :
    l.contains a = true ↔ a ∈ l := by
  simp [List.contains_eq_any_beq, List.any_eq_true]

theorem parseChars_wellformed (s : List Char) :
    ∀ g, g ∈ parseChars s → g ≠ [] ∧ ¬(',' ∈ g) ∧ trimChars g = g := by
  intro g hg
  unfold parseChars at hg
  rw [List.mem_filter] at hg
  rcases hg with ⟨hmap, hne⟩
  rcases List.mem_map.mp hmap with ⟨g0, hg0, rfl⟩
  refine ⟨?_, ?_, trimChars_idem g0⟩
  · intro hnil
    rw [hnil] at hne
    simp at hne
  · exact trimChars_subset g0 ',' (mem_splitComma_no_comma s g0 hg0)

theorem appendNew_nil (ex : List (List Char)) :
    appendNew ex [] = (ex, 0) := rfl

theorem appendNew_cons (ex : List (List Char)) (v : List Char)
    (rest : List (List Char)) :
    appendNew ex (v :: rest) =
      if (!(trimChars v).isEmpty && !ex.contains (trimChars v)) = true then
        ((appendNew (ex ++ [trimChars v]) rest).1,
         (appendNew (ex ++ [trimChars v]) rest).2 + 1)
      else appendNew ex rest := rfl

theorem appendNew_mem_mono (vs : List (List Char)) :
    ∀ (ex : List (List Char)) (a : List Char), a ∈ ex →
      a ∈ (appendNew ex vs).1 := by
  induction vs with
  | nil => intro ex a h; rw [appendNew_nil]; exact h
  | cons v rest ih =>
    intro ex a h
    rw [appendNew_cons]
    cases hcond : (!(trimChars v).isEmpty && !ex.contains (trimChars v)) with
    | true =>
      rw [if_beq_true rfl]
      exact ih _ _ (List.mem_append_left _ h)
    | false =>
      rw [if_beq_false rfl]
      exact ih _ _ h

theorem appendNew_mem_values (vs : List (List Char)) :
    ∀ (ex : List (List Char)) (v : List Char), v ∈ vs →
      trimChars v = [] ∨ trimChars v ∈ (appendNew ex vs).1 := by
  induction vs with
  | nil => intro ex v h; simp at h
  | cons v0 rest ih =>
    intro ex v hv
    rw [appendNew_cons]
    cases hcond : (!(trimChars v0).isEmpty
        && !ex.contains (trimChars v0)) with
    | true =>
      rw [if_beq_true rfl]
      rcases List.mem_cons.mp hv with rfl | hv'
      · right
        exact appendNew_mem_mono rest _ _
          (List.mem_append_right _ (by simp))
      · exact ih _ _ hv'
    | false =>
      rw [if_beq_false rfl]
      rcases List.mem_cons.mp hv with rfl | hv'
      · rw [Bool.and_eq_false_iff] at hcond
        rcases hcond with hemp | hcont
        · left
          rw [bool_not_eq_false] at hemp
          exact List.isEmpty_iff.mp hemp
        · right
          rw [bool_not_eq_false] at hcont
          exact appendNew_mem_mono rest _ _
            ((contains_list_iff _ _).mp hcont)
      · exact ih _ _ hv'

theorem appendNew_noop (vs : List (List Char)) :
    ∀ (ex : List (List Char)),
    (∀ v, v ∈ vs → trimChars v = [] ∨ trimChars v ∈ ex) →
    appendNew ex vs = (ex, 0) := by
  induction vs with
  | nil => intro ex _; rfl
  | cons v0 rest ih =>
    intro ex h
    have hcond : (!(trimChars v0).isEmpty
        && !ex.contains (trimChars v0)) = false := by
      rcases h v0 (by simp) with hemp | hmem
      · rw [Bool.and_eq_false_iff]
        left
        rw [bool_not_eq_false, hemp]
        rfl
      · rw [Bool.and_eq_false_iff]
        right
        rw [bool_not_eq_false]
        exact (contains_list_iff _ _).mpr hmem
    rw [appendNew_cons, if_beq_false hcond]
    exact ih ex (fun v hv => h v (List.mem_cons_of_mem _ hv))

theorem appendNew_wellformed (vs : List (List Char)) :
    ∀ (ex : List (List Char)),
    (∀ a, a ∈ ex → a ≠ [] ∧ ¬(',' ∈ a) ∧ trimChars a = a) →
    (∀ v, v ∈ vs → ¬(',' ∈ trimChars v)) →
    ∀ a, a ∈ (appendNew ex vs).1 →
      a ≠ [] ∧ ¬(',' ∈ a) ∧ trimChars a = a := by
  induction vs with
  | nil => intro ex hex _ a ha; exact hex a ha
  | cons v0 rest ih =>
    intro ex hex hvs a ha
    rw [appendNew_cons] at ha
    cases hcond : (!(trimChars v0).isEmpty
        && !ex.contains (trimChars v0)) with
    | true =>
      rw [if_beq_true hcond] at ha
      refine ih _ ?_ (fun v hv => hvs v (List.mem_cons_of_mem _ hv)) a ha
      intro b hb
      rcases List.mem_append.mp hb with hb' | hb'
      · exact hex b hb'
      · have hb0 : b = trimChars v0 := by simpa using hb'
        subst hb0
        refine ⟨?_, hvs v0 (by simp), trimChars_idem v0⟩
        intro hnil
        rw [Bool.and_eq_true] at hcond
        rw [hnil] at hcond
        simp at hcond
    | false =>
      rw [if_beq_false hcond] at ha
      exact ih _ hex (fun v hv => hvs v (List.mem_cons_of_mem _ hv)) a ha

theorem appendNew_fst_eq_of_count_zero (vs : List (List Char)) :
    ∀ (ex : List (List Char)), (appendNew ex vs).2 = 0 →
      (appendNew ex vs).1 = ex := by
  induction vs with
  | nil => intro ex _; rfl
  | cons v0 rest ih =>
    intro ex h
    rw [appendNew_cons] at h ⊢
    cases hcond : (!(trimChars v0).isEmpty
        && !ex.contains (trimChars v0)) with
    | true =>
      rw [if_beq_true hcond] at h
      simp at h
    | false =>
      rw [if_beq_false hcond] at h
      rw [if_beq_false rfl]
      exact ih ex h

theorem append_existing_wellformed (d1 : ConfigDoc) (sec key : String) :
    ∀ a, a ∈ append_existing d1 sec key →
      a ≠ [] ∧ ¬(',' ∈ a) ∧ trimChars a = a := by
  intro a ha
  simp only [append_existing] at ha
  cases hcc : ((docGet d1 sec key).getD "" == "") with
  | true =>
    rw [if_beq_true hcc] at ha
    simp at ha
  | false =>
    rw [if_beq_false hcc] at ha
    exact parseChars_wellformed _ a ha

theorem joinCommaSpace_cons_ne_nil (x : List Char) (xs : List (List Char))
    (hx : x ≠ []) : joinCommaSpace (x :: xs) ≠ [] := by
  cases xs with
  | nil => exact hx
  | cons y ys =>
    show x ++ ',' :: ' ' :: joinCommaSpace (y :: ys) ≠ []
    simp

/-- C9 (amended): `append_config` skips values already present, writes
the file iff at least one value was newly appended, and returns the
Python boolean `True` (not the appended count, which is only logged).
For values whose stripped text contains no comma, a second call with
the same values appends nothing, leaves the persisted document
unchanged, and performs no write. -/
theorem append_config_skip_write_iff_and_idem (d : ConfigDoc)
    (sec key : String) (values : List String)
    (hc : ∀ v, v ∈ values → ¬(',' ∈ trimChars v.data)) :
    (append_config d sec key values).ret = PyVal.pyBool true ∧
    (0 < (append_config d sec key values).appendedCount →
      (append_config d sec key values).writes = 1) ∧
    ((append_config d sec key values).appendedCount = 0 →
      (append_config d sec key values).writes = 0 ∧
      (append_config d sec key values).persisted = d) ∧
    (append_config (append_config d sec key values).persisted sec key
      values).appendedCount = 0 ∧
    (append_config (append_config d sec key values).persisted sec key
      values).persisted = (append_config d sec key values).persisted ∧
    (append_config (append_config d sec key values).persisted sec key
      values).writes = 0 := by
  set d1 := if hasSection d sec then d else addSection d sec with hd1
  set p := appendNew (append_existing d1 sec key) (values.map String.data)
    with hp
  have hs1 : hasSection d1 sec = true := by
    rw [hd1]
    cases hds : hasSection d sec with
    | true => exact hds
    | false =>
      show hasSection (addSection d sec) sec = true
      rw [hasSection_addSection]
      simp
  have pWf : ∀ a, a ∈ p.1 → a ≠ [] ∧ ¬(',' ∈ a) ∧ trimChars a = a := by
    rw [hp]
    refine appendNew_wellformed _ _ (append_existing_wellformed d1 sec key) ?_
    intro v hv
    rcases List.mem_map.mp hv with ⟨v0, hv0, rfl⟩
    exact hc v0 hv0
  have hmemvals : ∀ v, v ∈ values.map String.data →
      trimChars v = [] ∨ trimChars v ∈ p.1 := by
    rw [hp]
    intro v hv
    exact appendNew_mem_values _ _ _ hv
  by_cases hcount : 0 < p.2
  · have he1 : append_config d sec key values =
        ⟨docSet d1 sec key ⟨joinCommaSpace p.1⟩, 1, p.2, .pyBool true⟩ := by
      simp only [append_config]
      rw [← hd1, ← hp, if_pos hcount]
    have hs2 : hasSection (docSet d1 sec key ⟨joinCommaSpace p.1⟩) sec
        = true := by
      rw [hasSection_docSet]
      exact hs1
    have hget : docGet (docSet d1 sec key ⟨joinCommaSpace p.1⟩) sec key
        = some ⟨joinCommaSpace p.1⟩ :=
      docGet_docSet_self _ _ _ _ hs1
    have hex2 : append_existing (docSet d1 sec key ⟨joinCommaSpace p.1⟩)
        sec key = p.1 := by
      simp only [append_existing]
      rw [hget, Option.getD_some]
      cases hp1 : p.1 with
      | nil =>
        rw [if_beq_true (by decide)]
      | cons x xs =>
        have hxne : x ≠ [] := (pWf x (by rw [hp1]; simp)).1
        have hjne : joinCommaSpace (x :: xs) ≠ [] :=
          joinCommaSpace_cons_ne_nil x xs hxne
        have hbeq : ((⟨joinCommaSpace (x :: xs)⟩ : String) == "") = false := by
          rw [beq_eq_false_iff_ne]
          intro hstr
          exact hjne (by simpa using congrArg String.data hstr)
        rw [if_beq_false hbeq]
        exact parseChars_joinCommaSpace _
          (fun z hz => pWf z (by rw [hp1]; exact hz))
    have hnoop2 : appendNew (append_existing
        (docSet d1 sec key ⟨joinCommaSpace p.1⟩) sec key)
        (values.map String.data) = (p.1, 0) := by
      rw [hex2]
      exact appendNew_noop _ _ hmemvals
    have he2 : append_config (docSet d1 sec key ⟨joinCommaSpace p.1⟩)
        sec key values =
        ⟨docSet d1 sec key ⟨joinCommaSpace p.1⟩, 0, 0, .pyBool true⟩ := by
      simp only [append_config]
      rw [if_beq_true hs2, hnoop2, if_neg (by simp)]
    refine ⟨?_, ?_, ?_, ?_, ?_, ?_⟩
    · rw [he1]
    · intro _
      rw [he1]
    · intro hz
      rw [he1] at hz
      exfalso
      rw [show (⟨docSet d1 sec key ⟨joinCommaSpace p.1⟩, 1, p.2,
        .pyBool true⟩ : AppendResult).appendedCount = p.2 from rfl] at hz
      omega
    · rw [he1]
      show (append_config (docSet d1 sec key ⟨joinCommaSpace p.1⟩)
        sec key values).appendedCount = 0
      rw [he2]
    · rw [he1]
      show (append_config (docSet d1 sec key ⟨joinCommaSpace p.1⟩)
          sec key values).persisted
        = (docSet d1 sec key ⟨joinCommaSpace p.1⟩)
      rw [he2]
    · rw [he1]
      show (append_config (docSet d1 sec key ⟨joinCommaSpace p.1⟩)
        sec key values).writes = 0
      rw [he2]
  · have he1 : append_config d sec key values =
        ⟨d, 0, p.2, .pyBool true⟩ := by
      simp only [append_config]
      rw [← hd1, ← hp, if_neg hcount]
    have hp2z : p.2 = 0 := Nat.eq_zero_of_not_pos hcount
    refine ⟨?_, ?_, ?_, ?_, ?_, ?_⟩
    · rw [he1]
    · intro hpos
      rw [he1] at hpos
      exfalso
      rw [show (⟨d, 0, p.2, .pyBool true⟩ : AppendResult).appendedCount
        = p.2 from rfl] at hpos
      exact hcount hpos
    · intro _
      rw [he1]
      exact ⟨rfl, rfl⟩
    · rw [he1]
      show (append_config d sec key values).appendedCount = 0
      rw [he1, hp2z]
    · rw [he1]
      show (append_config d sec key values).persisted = d
      rw [he1]
    · rw [he1]
      show (append_config d sec key values).writes = 0
      rw [he1]

/-- Counterexample to C9 as stated: at a concrete input `append_config`
appends one value yet returns the Python boolean `True`, not the count
`1`; and with a comma-containing value the second identical call is not
a no-op — it appends again and writes again. -/
theorem append_config_count_claim_cex :
    (append_config [("FILETYPE", [("blacklisted_names", "")])]
      "FILETYPE" "blacklisted_names" ["file1"]).appendedCount = 1 ∧
    (append_config [("FILETYPE", [("blacklisted_names", "")])]
      "FILETYPE" "blacklisted_names" ["file1"]).ret = PyVal.pyBool true ∧
    PyVal.pyBool true ≠ PyVal.pyInt 1 ∧
    (append_config (append_config
      [("FILETYPE", [("blacklisted_names", "")])]
      "FILETYPE" "blacklisted_names" ["a,b"]).persisted
      "FILETYPE" "blacklisted_names" ["a,b"]).appendedCount = 1 ∧
    (append_config (append_config
      [("FILETYPE", [("blacklisted_names", "")])]
      "FILETYPE" "blacklisted_names" ["a,b"]).persisted
      "FILETYPE" "blacklisted_names" ["a,b"]).writes = 1 := by
  refine ⟨by decide, by decide, by decide, by decide, by decide⟩

/-- Witness for the amended C9 at a concrete document and value list. -/
theorem append_config_skip_write_iff_and_idem_witness :
    (append_config (append_config
      [("FILETYPE", [("blacklisted_names", "file1")])]
      "FILETYPE" "blacklisted_names" ["file2"]).persisted
      "FILETYPE" "blacklisted_names" ["file2"]).appendedCount = 0 ∧
    (append_config (append_config
      [("FILETYPE", [("blacklisted_names", "file1")])]
      "FILETYPE" "blacklisted_names" ["file2"]).persisted
      "FILETYPE" "blacklisted_names" ["file2"]).writes = 0 :=
  ⟨(append_config_skip_write_iff_and_idem
      [("FILETYPE", [("blacklisted_names", "file1")])]
      "FILETYPE" "blacklisted_names" ["file2"]
      (by decide)).2.2.2.1,
   (append_config_skip_write_iff_and_idem
      [("FILETYPE", [("blacklisted_names", "file1")])]
      "FILETYPE" "blacklisted_names" ["file2"]
      (by decide)).2.2.2.2.2⟩

/-! ## Claim theorems: rule commands and orchestration -/

theorem build_firewall_command_matches_deny_case :
    build_firewall_command "deny" "in"
      ⟨"C:\\path\\to\\test_app.exe", "test_app", ".exe", 0, true⟩ =
    some ("@echo off && netsh advfirewall firewall add rule "
      ++ "name=\"PyWall blocked test_app\""
      ++ " dir=in program=\"C:\\path\\to\\test_app.exe\" action=block") := by
  decide

theorem build_firewall_command_matches_allow_case :
    build_firewall_command "allow" "out"
      ⟨"C:\\path\\to\\test_app.exe", "test_app", ".exe", 0, true⟩ =
    some ("@echo off && netsh advfirewall firewall delete rule "
      ++ "name=\"PyWall blocked test_app\""
      ++ " dir=out program=\"C:\\path\\to\\test_app.exe\"") := by
  decide

/-- C1: building a firewall command is pure and deterministic, the rule
name embedded in the command is exactly `PyWall blocked ` followed by
the file's stem (so it depends only on the stem), and the `allow` and
`deny` commands for the same file and direction embed the identical
`name="..."` fragment. -/
theorem build_firewall_command_rule_identity (d : String) (f f' : FileEntry)
    (hstem : f.stem = f'.stem) :
    (∀ a, build_firewall_command a d f = build_firewall_command a d f) ∧
    ruleNameFor f = "PyWall blocked " ++ f.stem ∧
    ruleNameFor f = ruleNameFor f' ∧
    nameToken f = nameToken f' ∧
    (∃ cd, build_firewall_command "deny" d f = some cd ∧
      (nameToken f).data <:+: cd.data) ∧
    (∃ ca, build_firewall_command "allow" d f = some ca ∧
      (nameToken f).data <:+: ca.data) := by
  have hrn : ruleNameFor f = ruleNameFor f' := by
    rw [ruleNameFor, ruleNameFor, hstem]
  refine ⟨fun a => rfl, rfl, hrn, by rw [nameToken, nameToken, hrn],
    ?_, ?_⟩
  · refine ⟨_, rfl, ?_⟩
    refine ⟨"@echo off && netsh advfirewall firewall add rule ".data,
      (" dir=" ++ d ++ " program=\"" ++ f.path
        ++ "\" action=block").data, ?_⟩
    simp [String.data_append, List.append_assoc]
  · refine ⟨_, rfl, ?_⟩
    refine ⟨"@echo off && netsh advfirewall firewall delete rule ".data,
      (" dir=" ++ d ++ " program=\"" ++ f.path ++ "\"").data, ?_⟩
    simp [String.data_append, List.append_assoc]

/-- Witness for C1 at a concrete direction and pair of files sharing a
stem. -/
theorem build_firewall_command_rule_identity_witness :
    ruleNameFor ⟨"C:\\a\\app.exe", "app", ".exe", 0, true⟩
      = "PyWall blocked app" ∧
    nameToken ⟨"C:\\a\\app.exe", "app", ".exe", 0, true⟩
      = nameToken ⟨"D:\\b\\app.bat", "app", ".bat", 3, true⟩ := by
  have h := build_firewall_command_rule_identity "in"
    ⟨"C:\\a\\app.exe", "app", ".exe", 0, true⟩
    ⟨"D:\\b\\app.bat", "app", ".bat", 3, true⟩ rfl
  exact ⟨h.2.1, h.2.2.2.1⟩

theorem bool_not_eq_true (b : Bool) : ((!b) = true) ↔ (b = false) := by
  cases b <;> simp

theorem gather_single_file_eq (cfg : ConfigDoc)
    (ignored allowed : List String) (p : PathInfo)
    (hex : p.existsOnDisk = true) (hdir : p.isDir = false)
    (hfile : p.isFile = true) :
    gather_target_files cfg ignored allowed p =
      if (!ignored.contains p.stem
          && allowed.any (fun a => occursIn a.data p.suffix.data)) = true then
        ⟨some [p.entry], cfg, 0⟩
      else ⟨none, cfg, 0⟩ := by
  unfold gather_target_files
  rw [hex, hdir, hfile, if_beq_false (by decide), if_beq_false rfl,
    if_beq_true rfl]

theorem gather_single_file_cond_iff (ignored allowed : List String)
    (p : PathInfo) :
    (!ignored.contains p.stem
      && allowed.any (fun a => occursIn a.data p.suffix.data)) = true ↔
    (¬p.stem ∈ ignored ∧ ∃ a ∈ allowed, a.data <:+: p.suffix.data) := by
  rw [Bool.and_eq_true, bool_not_eq_true, List.any_eq_true]
  constructor
  · rintro ⟨h1, h2⟩
    constructor
    · intro hm
      rw [(contains_true_iff ignored p.stem).mpr hm] at h1
      exact Bool.noConfusion h1
    · rcases h2 with ⟨a, ha, hocc⟩
      exact ⟨a, ha, (occursIn_infix_iff _ _).mp hocc⟩
  · rintro ⟨h1, h2⟩
    constructor
    · cases hcc : ignored.contains p.stem with
      | true => exact absurd ((contains_true_iff _ _).mp hcc) h1
      | false => rfl
    · rcases h2 with ⟨a, ha, hinf⟩
      exact ⟨a, ha, (occursIn_infix_iff _ _).mpr hinf⟩

/-- C5: for an existing single-file path, the resolver includes the file
as a target iff its stem is not blacklisted and some accepted suffix
occurs as a substring of the file's suffix (containment, not equality);
otherwise the resolution yields no targets. -/
theorem gather_single_file_iff (cfg : ConfigDoc)
    (ignored allowed : List String) (p : PathInfo)
    (hex : p.existsOnDisk = true) (hdir : p.isDir = false)
    (hfile : p.isFile = true) :
    ((gather_target_files cfg ignored allowed p).targets = some [p.entry] ↔
      (¬p.stem ∈ ignored ∧ ∃ a ∈ allowed, a.data <:+: p.suffix.data)) ∧
    (¬(¬p.stem ∈ ignored ∧ ∃ a ∈ allowed, a.data <:+: p.suffix.data) →
      (gather_target_files cfg ignored allowed p).targets = none) := by
  rw [gather_single_file_eq cfg ignored allowed p hex hdir hfile]
  cases hcond : (!ignored.contains p.stem
      && allowed.any (fun a => occursIn a.data p.suffix.data)) with
  | true =>
    rw [if_beq_true rfl]
    constructor
    · exact ⟨fun _ => (gather_single_file_cond_iff _ _ _).mp hcond,
        fun _ => rfl⟩
    · intro habs
      exact absurd ((gather_single_file_cond_iff _ _ _).mp hcond) habs
  | false =>
    rw [if_beq_false rfl]
    constructor
    · constructor
      · intro habs
        exact Option.noConfusion habs
      · intro hP
        rw [(gather_single_file_cond_iff ignored allowed p).mpr hP] at hcond
        exact Bool.noConfusion hcond
    · intro _
      rfl

/-- Witness for C5: a concrete `.exe` file is accepted, and the same
file with a blacklisted stem is rejected with no targets. -/
theorem gather_single_file_iff_witness :
    (gather_target_files [] [] [".exe"]
      ⟨"app.exe", "app", ".exe", true, false, true, ⟨[], []⟩,
        ⟨"app.exe", "app", ".exe", 7, true⟩⟩).targets
      = some [⟨"app.exe", "app", ".exe", 7, true⟩] ∧
    (gather_target_files [] ["app"] [".exe"]
      ⟨"app.exe", "app", ".exe", true, false, true, ⟨[], []⟩,
        ⟨"app.exe", "app", ".exe", 7, true⟩⟩).targets = none := by
  constructor
  · exact (gather_single_file_iff [] [] [".exe"]
      ⟨"app.exe", "app", ".exe", true, false, true, ⟨[], []⟩,
        ⟨"app.exe", "app", ".exe", 7, true⟩⟩ rfl rfl rfl).1.mpr
      (by constructor
          · simp
          · exact ⟨".exe", by simp, by decide⟩)
  · exact (gather_single_file_iff [] ["app"] [".exe"]
      ⟨"app.exe", "app", ".exe", true, false, true, ⟨[], []⟩,
        ⟨"app.exe", "app", ".exe", 7, true⟩⟩ rfl rfl rfl).2
      (by intro h
          exact h.1 (by simp))

theorem path_foreach_in_eq_some (cfg : ConfigDoc) (dir : DirListing)
    (v : String) (h : docGet cfg "FILETYPE" "recursive" = some v) :
    path_foreach_in cfg dir =
      if (v == "True") = true then
        ⟨sortByCtime (sortByCtime dir.descendants ++ sortByCtime dir.children),
         cfg, 0⟩
      else if (v == "False") = true then
        ⟨sortByCtime dir.children, cfg, 0⟩
      else
        ⟨sortByCtime (sortByCtime dir.descendants ++ sortByCtime dir.children),
         modify_config cfg "FILETYPE" "recursive" "True", 1⟩ := by
  unfold path_foreach_in
  rw [h]

theorem path_foreach_in_eq_none (cfg : ConfigDoc) (dir : DirListing)
    (h : docGet cfg "FILETYPE" "recursive" = none) :
    path_foreach_in cfg dir =
      ⟨sortByCtime (sortByCtime dir.descendants ++ sortByCtime dir.children),
       (validate_config default_config cfg).doc,
       (validate_config default_config cfg).writes⟩ := by
  unfold path_foreach_in
  rw [h]

theorem sortByCtime_append_perm (a b : List FileEntry) :
    (sortByCtime (sortByCtime a ++ sortByCtime b)).Perm (a ++ b) :=
  (sortByCtime_perm _).trans
    ((sortByCtime_perm a).append (sortByCtime_perm b))

/-- C6: the candidate files enumerated for a directory (immediate
children, merged with the recursive descendants when the recursive flag
is `"True"`) come out ordered by creation time ascending, independent
of the order in which the file system lists them. -/
theorem path_foreach_in_sorted_by_ctime (cfg : ConfigDoc)
    (dir : DirListing) :
    (path_foreach_in cfg dir).files.Pairwise
      (fun a b => a.ctime ≤ b.ctime) ∧
    (docGet cfg "FILETYPE" "recursive" = some "False" →
      (path_foreach_in cfg dir).files.Perm dir.children) ∧
    (docGet cfg "FILETYPE" "recursive" = some "True" →
      (path_foreach_in cfg dir).files.Perm
        (dir.descendants ++ dir.children)) := by
  refine ⟨?_, ?_, ?_⟩
  · cases hv : docGet cfg "FILETYPE" "recursive" with
    | none =>
      rw [path_foreach_in_eq_none _ _ hv]
      exact sortByCtime_sorted _
    | some v =>
      rw [path_foreach_in_eq_some _ _ _ hv]
      cases ht : v == "True" with
      | true =>
        rw [if_beq_true rfl]
        exact sortByCtime_sorted _
      | false =>
        rw [if_beq_false rfl]
        cases hf : v == "False" with
        | true =>
          rw [if_beq_true rfl]
          exact sortByCtime_sorted _
        | false =>
          rw [if_beq_false rfl]
          exact sortByCtime_sorted _
  · intro h
    rw [path_foreach_in_eq_some _ _ _ h, if_beq_false (by decide),
      if_beq_true (by decide)]
    exact sortByCtime_perm _
  · intro h
    rw [path_foreach_in_eq_some _ _ _ h, if_beq_true (by decide)]
    exact sortByCtime_append_perm _ _

/-- Witness for C6 at a concrete directory whose creation times disagree
with the name order. -/
theorem path_foreach_in_sorted_by_ctime_witness :
    (path_foreach_in [("FILETYPE", [("recursive", "True")])]
      ⟨[⟨"a", "a", ".exe", 9, true⟩, ⟨"b", "b", ".exe", 1, true⟩],
       [⟨"c", "c", ".exe", 5, true⟩]⟩).files.Pairwise
      (fun a b => a.ctime ≤ b.ctime) ∧
    (path_foreach_in [("FILETYPE", [("recursive", "True")])]
      ⟨[⟨"a", "a", ".exe", 9, true⟩, ⟨"b", "b", ".exe", 1, true⟩],
       [⟨"c", "c", ".exe", 5, true⟩]⟩).files.Perm
      ([⟨"c", "c", ".exe", 5, true⟩] ++
       [⟨"a", "a", ".exe", 9, true⟩, ⟨"b", "b", ".exe", 1, true⟩]) := by
  have h := path_foreach_in_sorted_by_ctime
    [("FILETYPE", [("recursive", "True")])]
    ⟨[⟨"a", "a", ".exe", 9, true⟩, ⟨"b", "b", ".exe", 1, true⟩],
     [⟨"c", "c", ".exe", 5, true⟩]⟩
  exact ⟨h.1, h.2.2 (by decide)⟩

theorem hasSection_ensure (d : ConfigDoc) (s : String) :
    hasSection (if hasSection d s then d else addSection d s) s = true := by
  cases h : hasSection d s with
  | true => exact h
  | false =>
    show hasSection (addSection d s) s = true
    rw [hasSection_addSection]
    simp

theorem modify_config_docGet_self (d : ConfigDoc) (s k v : String) :
    docGet (modify_config d s k v) s k = some v := by
  unfold modify_config
  exact docGet_docSet_self _ _ _ _ (hasSection_ensure d s)

/-- C10: when the stored `FILETYPE/recursive` value is any string other
than `"True"` or `"False"`, the directory enumeration rewrites that key
to `"True"` in the persisted configuration (one write) and then
enumerates the directory recursively. -/
theorem path_foreach_in_rewrites_recursive (cfg : ConfigDoc)
    (dir : DirListing) (v : String)
    (hv : docGet cfg "FILETYPE" "recursive" = some v)
    (hT : v ≠ "True") (hF : v ≠ "False") :
    docGet (path_foreach_in cfg dir).cfg "FILETYPE" "recursive"
      = some "True" ∧
    (path_foreach_in cfg dir).cfgWrites = 1 ∧
    (path_foreach_in cfg dir).files.Perm
      (dir.descendants ++ dir.children) := by
  rw [path_foreach_in_eq_some _ _ _ hv,
    if_beq_false (beq_eq_false_iff_ne.mpr hT),
    if_beq_false (beq_eq_false_iff_ne.mpr hF)]
  exact ⟨modify_config_docGet_self cfg "FILETYPE" "recursive" "True", rfl,
    sortByCtime_append_perm _ _⟩

/-- Witness for C10 with the stored value `"banana"`. -/
theorem path_foreach_in_rewrites_recursive_witness :
    docGet (path_foreach_in [("FILETYPE", [("recursive", "banana")])]
      ⟨[⟨"a", "a", ".exe", 9, true⟩], [⟨"c", "c", ".exe", 5, true⟩]⟩).cfg
      "FILETYPE" "recursive" = some "True" ∧
    (path_foreach_in [("FILETYPE", [("recursive", "banana")])]
      ⟨[⟨"a", "a", ".exe", 9, true⟩], [⟨"c", "c", ".exe", 5, true⟩]⟩).cfgWrites
      = 1 := by
  have h := path_foreach_in_rewrites_recursive
    [("FILETYPE", [("recursive", "banana")])]
    ⟨[⟨"a", "a", ".exe", 9, true⟩], [⟨"c", "c", ".exe", 5, true⟩]⟩
    "banana" (by decide) (by decide) (by decide)
  exact ⟨h.1, h.2.1⟩

/-- C4: without elevation no firewall command is ever executed by this
process — a successful elevation request exits the process immediately,
and a failed one reports failure without attempting the operation
unelevated. -/
theorem execute_firewall_commands_needs_admin (env : ExecEnv)
    (commands : List String) (h : env.admin = false) :
    (execute_firewall_commands env commands).executed = [] ∧
    (env.elevateOk = true →
      (execute_firewall_commands env commands).outcome
        = ExecOutcome.exited) ∧
    (env.elevateOk = false →
      (execute_firewall_commands env commands).outcome
        = ExecOutcome.finished false) := by
  unfold execute_firewall_commands
  rw [h, if_beq_true (by decide)]
  refine ⟨?_, ?_, ?_⟩
  · cases helev : env.elevateOk with
    | true => rw [if_beq_true rfl]
    | false => rw [if_beq_false rfl]
  · intro helev
    rw [helev, if_beq_true rfl]
  · intro helev
    rw [helev, if_beq_false rfl]

/-- Witness for C4 in a concrete unelevated environment. -/
theorem execute_firewall_commands_needs_admin_witness :
    (execute_firewall_commands ⟨false, true, fun _ => true⟩
      ["cmd1", "cmd2"]).executed = [] ∧
    (execute_firewall_commands ⟨false, true, fun _ => true⟩
      ["cmd1", "cmd2"]).outcome = ExecOutcome.exited := by
  have h := execute_firewall_commands_needs_admin
    ⟨false, true, fun _ => true⟩ ["cmd1", "cmd2"] rfl
  exact ⟨h.1, h.2.1 rfl⟩

/-- C3: an invalid rule type aborts `access_handler` before any file
enumeration, before any command is built, and before any firewall
mutation is attempted. -/
theorem access_handler_invalid_rule_type (env : ExecEnv) (cfg : ConfigDoc)
    (ignored allowed : List String) (p : PathInfo) (action : String)
    (rule_type : String) (h1 : rule_type ≠ "both") (h2 : rule_type ≠ "in")
    (h3 : rule_type ≠ "out") :
    (access_handler env cfg ignored allowed p action rule_type).result
      = HandlerResult.finished "Invalid rule type" ∧
    (access_handler env cfg ignored allowed p action rule_type).gatherRan
      = false ∧
    (access_handler env cfg ignored allowed p action rule_type).built
      = [] ∧
    (access_handler env cfg ignored allowed p action rule_type).executed
      = [] := by
  have hcond : (rule_type == "both" || rule_type == "in"
      || rule_type == "out") = false := by
    rw [Bool.or_eq_false_iff, Bool.or_eq_false_iff]
    exact ⟨⟨beq_eq_false_iff_ne.mpr h1, beq_eq_false_iff_ne.mpr h2⟩,
      beq_eq_false_iff_ne.mpr h3⟩
  have he : access_handler env cfg ignored allowed p action rule_type =
      ⟨.finished "Invalid rule type", false, [], [],
        [("Rule type is invalid",
          "The selected rule type is not valid, please try again")]⟩ := by
    unfold access_handler
    rw [hcond, if_beq_true (by decide)]
  rw [he]
  exact ⟨rfl, rfl, rfl, rfl⟩

/-- Witness for C3 at the concrete rule type `"sideways"`. -/
theorem access_handler_invalid_rule_type_witness :
    (access_handler ⟨true, true, fun _ => true⟩ [] [] [".exe"]
      ⟨"app.exe", "app", ".exe", true, false, true, ⟨[], []⟩,
        ⟨"app.exe", "app", ".exe", 7, true⟩⟩ "deny" "sideways").result
      = HandlerResult.finished "Invalid rule type" ∧
    (access_handler ⟨true, true, fun _ => true⟩ [] [] [".exe"]
      ⟨"app.exe", "app", ".exe", true, false, true, ⟨[], []⟩,
        ⟨"app.exe", "app", ".exe", 7, true⟩⟩ "deny" "sideways").executed
      = [] := by
  have h := access_handler_invalid_rule_type ⟨true, true, fun _ => true⟩
    [] [] [".exe"]
    ⟨"app.exe", "app", ".exe", true, false, true, ⟨[], []⟩,
      ⟨"app.exe", "app", ".exe", 7, true⟩⟩ "deny" "sideways"
    (by decide) (by decide) (by decide)
  exact ⟨h.1, h.2.2.2⟩

theorem execute_firewall_commands_admin (env : ExecEnv)
    (commands : List String) (h : env.admin = true) :
    execute_firewall_commands env commands =
      ⟨.finished ((commands.filter (fun c => !(c == ""))).all env.exec),
       commands.filter (fun c => !(c == ""))⟩ := by
  unfold execute_firewall_commands
  rw [h, if_beq_false (by decide)]

theorem access_loop_nil (env : ExecEnv) (action rule_type : String) :
    access_loop env action rule_type [] = ⟨[], [], true, false⟩ := rfl

theorem access_loop_cons (env : ExecEnv) (action rule_type : String)
    (f : FileEntry) (rest : List FileEntry) :
    access_loop env action rule_type (f :: rest) =
      if (buildCommandsFor action rule_type f).isEmpty = true then
        ⟨buildCommandsFor action rule_type f
           ++ (access_loop env action rule_type rest).built,
         (access_loop env action rule_type rest).executed,
         (access_loop env action rule_type rest).allOk,
         (access_loop env action rule_type rest).exited⟩
      else
        match (execute_firewall_commands env
            (buildCommandsFor action rule_type f)).outcome with
        | .exited =>
          ⟨buildCommandsFor action rule_type f,
           (execute_firewall_commands env
             (buildCommandsFor action rule_type f)).executed, true, true⟩
        | .finished ok =>
          ⟨buildCommandsFor action rule_type f
             ++ (access_loop env action rule_type rest).built,
           (execute_firewall_commands env
               (buildCommandsFor action rule_type f)).executed
             ++ (access_loop env action rule_type rest).executed,
           ok && (access_loop env action rule_type rest).allOk,
           (access_loop env action rule_type rest).exited⟩ := rfl

theorem access_loop_admin (env : ExecEnv) (action rule_type : String)
    (h : env.admin = true) :
    ∀ files : List FileEntry,
    access_loop env action rule_type files =
      ⟨files.flatMap (buildCommandsFor action rule_type),
       (files.flatMap (buildCommandsFor action rule_type)).filter
         (fun c => !(c == "")),
       files.all (fun f => ((buildCommandsFor action rule_type f).filter
         (fun c => !(c == ""))).all env.exec),
       false⟩ := by
  intro files
  induction files with
  | nil => rfl
  | cons f rest ih =>
    rw [access_loop_cons]
    cases hc : (buildCommandsFor action rule_type f).isEmpty with
    | true =>
      rw [if_beq_true rfl, ih]
      have hnil : buildCommandsFor action rule_type f = [] :=
        List.isEmpty_iff.mp hc
      simp [List.flatMap_cons, List.filter_append, List.all_cons, hnil]
    | false =>
      rw [if_beq_false rfl,
        execute_firewall_commands_admin env _ h, ih]
      simp [List.flatMap_cons, List.filter_append, List.all_cons]

theorem string_append_right_ne_empty (s t : String) (ht : t.data ≠ []) :
    s ++ t ≠ "" := by
  intro h
  have hd := congrArg String.data h
  rw [String.data_append] at hd
  exact ht (List.append_eq_nil.mp hd).2

theorem buildCommandsFor_both (action : String) (f : FileEntry)
    (ha : action = "deny" ∨ action = "allow") :
    ∃ ci co, build_firewall_command action "in" f = some ci ∧
      build_firewall_command action "out" f = some co ∧
      buildCommandsFor action "both" f = [ci, co] ∧
      ci ≠ "" ∧ co ≠ "" := by
  rcases ha with rfl | rfl
  · exact ⟨_, _, rfl, rfl, rfl,
      string_append_right_ne_empty _ _ (by decide),
      string_append_right_ne_empty _ _ (by decide)⟩
  · exact ⟨_, _, rfl, rfl, rfl,
      string_append_right_ne_empty _ _ (by decide),
      string_append_right_ne_empty _ _ (by decide)⟩

theorem buildCommandsFor_filter_ne (action : String) (f : FileEntry)
    (ha : action = "deny" ∨ action = "allow") :
    (buildCommandsFor action "both" f).filter (fun c => !(c == ""))
      = buildCommandsFor action "both" f := by
  obtain ⟨ci, co, _, _, h3, hci, hco⟩ := buildCommandsFor_both action f ha
  rw [h3]
  simp [List.filter_cons, beq_eq_false_iff_ne.mpr hci,
    beq_eq_false_iff_ne.mpr hco]

theorem access_handler_both_all_iff (env : ExecEnv) (action : String)
    (files : List FileEntry) (ha : action = "deny" ∨ action = "allow") :
    (files.all (fun f => ((buildCommandsFor action "both" f).filter
        (fun c => !(c == ""))).all env.exec)) = true ↔
    (∀ f ∈ files, ∀ c ∈ buildCommandsFor action "both" f,
      env.exec c = true) := by
  rw [List.all_eq_true]
  constructor
  · intro h f hf c hc
    have hall := h f hf
    rw [buildCommandsFor_filter_ne action f ha, List.all_eq_true] at hall
    exact hall c hc
  · intro h f hf
    rw [buildCommandsFor_filter_ne action f ha, List.all_eq_true]
    exact h f hf

/-- C2: with rule type `both` the orchestrator builds and attempts two
commands per target file (direction `in` and direction `out`); the
overall result is success iff every attempted direction of every file
succeeded, and otherwise it is the partial-failure result whose
user-facing summary names the original input path. -/
theorem access_handler_both_aggregation (env : ExecEnv) (cfg : ConfigDoc)
    (ignored allowed : List String) (p : PathInfo) (action : String)
    (files : List FileEntry) (hadm : env.admin = true)
    (ha : action = "deny" ∨ action = "allow")
    (hg : (gather_target_files cfg ignored allowed p).targets
      = some files) :
    (access_handler env cfg ignored allowed p action "both").built
      = files.flatMap (buildCommandsFor action "both") ∧
    (∀ f ∈ files, ∃ ci co,
      build_firewall_command action "in" f = some ci ∧
      build_firewall_command action "out" f = some co ∧
      buildCommandsFor action "both" f = [ci, co]) ∧
    (access_handler env cfg ignored allowed p action "both").executed
      = (access_handler env cfg ignored allowed p action "both").built ∧
    ((access_handler env cfg ignored allowed p action "both").result
        = HandlerResult.finished "Operation completed" ↔
      ∀ f ∈ files, ∀ c ∈ buildCommandsFor action "both" f,
        env.exec c = true) ∧
    ((¬ ∀ f ∈ files, ∀ c ∈ buildCommandsFor action "both" f,
        env.exec c = true) →
      (access_handler env cfg ignored allowed p action "both").result
        = HandlerResult.finished "Operation failed for some files" ∧
      ("Operation Partly Failed", failSummaryBody p.name)
        ∈ (access_handler env cfg ignored allowed p action "both").toasts ∧
      p.name.data <:+: (failSummaryBody p.name).data) := by
  have he : access_handler env cfg ignored allowed p action "both" =
      (if (access_loop env action "both" files).exited = true then
        ⟨.exited, true, (access_loop env action "both" files).built,
         (access_loop env action "both" files).executed, []⟩
      else if (access_loop env action "both" files).allOk = true then
        ⟨.finished "Operation completed", true,
         (access_loop env action "both" files).built,
         (access_loop env action "both" files).executed,
         successToasts action p.name⟩
      else
        ⟨.finished "Operation failed for some files", true,
         (access_loop env action "both" files).built,
         (access_loop env action "both" files).executed,
         [("Operation Partly Failed", failSummaryBody p.name)]⟩) := by
    simp only [access_handler]
    rw [if_beq_false (by decide), hg]
  have hloop := access_loop_admin env action "both" hadm files
  have hBf : (files.flatMap (buildCommandsFor action "both")).filter
      (fun c => !(c == "")) = files.flatMap (buildCommandsFor action "both") := by
    refine List.filter_eq_self.mpr ?_
    intro c hcB
    rcases List.mem_flatMap.mp hcB with ⟨f, hf, hcf⟩
    obtain ⟨ci, co, _, _, h3, hci, hco⟩ := buildCommandsFor_both action f ha
    rw [h3] at hcf
    rw [bool_not_eq_true, beq_eq_false_iff_ne]
    rcases List.mem_cons.mp hcf with rfl | hcf'
    · exact hci
    · rcases List.mem_cons.mp hcf' with rfl | hcf''
      · exact hco
      · simp at hcf''
  have hinfix : p.name.data <:+: (failSummaryBody p.name).data := by
    refine ⟨"Some rules for \"".data,
      "\" may not have been applied. Check logs.".data, ?_⟩
    simp [failSummaryBody, String.data_append, List.append_assoc]
  cases hallb : files.all (fun f => ((buildCommandsFor action "both" f).filter
      (fun c => !(c == ""))).all env.exec) with
  | true =>
    have he2 : access_handler env cfg ignored allowed p action "both" =
        ⟨.finished "Operation completed", true,
         files.flatMap (buildCommandsFor action "both"),
         (files.flatMap (buildCommandsFor action "both")).filter
           (fun c => !(c == "")),
         successToasts action p.name⟩ := by
      rw [he, hloop, hallb]
      rw [if_neg (by simp), if_pos (by simp)]
    refine ⟨by rw [he2], ?_, by rw [he2, hBf], ?_, ?_⟩
    · intro f hf
      obtain ⟨ci, co, h1, h2, h3, _, _⟩ := buildCommandsFor_both action f ha
      exact ⟨ci, co, h1, h2, h3⟩
    · rw [he2]
      constructor
      · intro _
        exact (access_handler_both_all_iff env action files ha).mp hallb
      · intro _
        rfl
    · intro habs
      exact absurd ((access_handler_both_all_iff env action files ha).mp
        hallb) habs
  | false =>
    have he2 : access_handler env cfg ignored allowed p action "both" =
        ⟨.finished "Operation failed for some files", true,
         files.flatMap (buildCommandsFor action "both"),
         (files.flatMap (buildCommandsFor action "both")).filter
           (fun c => !(c == "")),
         [("Operation Partly Failed", failSummaryBody p.name)]⟩ := by
      rw [he, hloop, hallb]
      rw [if_neg (by simp), if_neg (by simp)]
    refine ⟨by rw [he2], ?_, by rw [he2, hBf], ?_, ?_⟩
    · intro f hf
      obtain ⟨ci, co, h1, h2, h3, _, _⟩ := buildCommandsFor_both action f ha
      exact ⟨ci, co, h1, h2, h3⟩
    · rw [he2]
      constructor
      · intro habs
        exfalso
        have := HandlerResult.finished.inj habs
        exact absurd this (by decide)
      · intro hP
        rw [(access_handler_both_all_iff env action files ha).mpr hP]
          at hallb
        exact Bool.noConfusion hallb
    · intro _
      rw [he2]
      exact ⟨rfl, by simp, hinfix⟩

/-- Witness for C2: one concrete file under `deny`/`both` in an
environment where every command fails, yielding the partial-failure
result that names the input path. -/
theorem access_handler_both_aggregation_witness :
    (access_handler ⟨true, true, fun _ => false⟩ [] [] [".exe"]
      ⟨"app.exe", "app", ".exe", true, false, true, ⟨[], []⟩,
        ⟨"app.exe", "app", ".exe", 7, true⟩⟩ "deny" "both").result
      = HandlerResult.finished "Operation failed for some files" ∧
    ("Operation Partly Failed", failSummaryBody "app.exe")
      ∈ (access_handler ⟨true, true, fun _ => false⟩ [] [] [".exe"]
      ⟨"app.exe", "app", ".exe", true, false, true, ⟨[], []⟩,
        ⟨"app.exe", "app", ".exe", 7, true⟩⟩ "deny" "both").toasts := by
  have h := access_handler_both_aggregation ⟨true, true, fun _ => false⟩
    [] [] [".exe"]
    ⟨"app.exe", "app", ".exe", true, false, true, ⟨[], []⟩,
      ⟨"app.exe", "app", ".exe", 7, true⟩⟩ "deny"
    [⟨"app.exe", "app", ".exe", 7, true⟩] rfl (Or.inl rfl) (by decide)
  have hfail := h.2.2.2.2 (by
    intro hall
    have := hall ⟨"app.exe", "app", ".exe", 7, true⟩ (by simp)
      (buildCommandsFor "deny" "both"
        ⟨"app.exe", "app", ".exe", 7, true⟩).head!
    simp [buildCommandsFor, build_firewall_command] at this)
  exact ⟨hfail.1, hfail.2.1⟩
